import Mathlib

/-!
Verification development for the `hsr-codegen` library (`src/hsr-codegen/src/lib.rs`).

Strings are modelled as lists of Unicode code points (`List Nat`), one entry per
Rust `char`.  The case-conversion primitives (`char::to_lowercase`,
`char::is_alphanumeric`, ...) are modelled on their ASCII fragment: for code
points ≥ 128 the model treats the character as uncased and non-alphanumeric.
All inputs appearing in the theorems below are ASCII, where the model agrees
with Rust exactly.
-/

set_option autoImplicit false

namespace Hsr

/-- A Rust string, as the list of its characters' code points. -/
abbrev Str := List Nat

/-- Code points of a Lean string literal, for writing concrete inputs. -/
def chars (s : String) : Str := s.toList.map Char.toNat

/-- ASCII fragment of Rust `char::is_lowercase`. -/
def isLowerC (c : Nat) : Bool := 97 ≤ c && c ≤ 122

/-- ASCII fragment of Rust `char::is_uppercase`. -/
def isUpperC (c : Nat) : Bool := 65 ≤ c && c ≤ 90

/-- ASCII `char::is_ascii_digit` (also the ASCII fragment of `is_numeric`). -/
def isDigitC (c : Nat) : Bool := 48 ≤ c && c ≤ 57

/-- ASCII fragment of Rust `char::is_alphanumeric`. -/
def isAlphanumericC (c : Nat) : Bool := isLowerC c || isUpperC c || isDigitC c

/-- ASCII fragment of Rust `char::is_alphabetic`; this is also exactly the
regex character class `[[:alpha:]]` used by `RoutePath::analyse` (that class
is ASCII-only even in Rust). -/
def isAlphaC (c : Nat) : Bool := isLowerC c || isUpperC c

/-- ASCII fragment of Rust `char::to_lowercase` (a single-char mapping there). -/
def toLowerC (c : Nat) : Nat := if isUpperC c then c + 32 else c

/-- ASCII fragment of Rust `char::to_uppercase` (a single-char mapping there). -/
def toUpperC (c : Nat) : Nat := if isLowerC c then c - 32 else c

/-- Rust `str::split` on a character predicate: splits at every matching
character, keeping empty pieces (`"".split(p)` yields one empty piece). -/
def rustSplit (p : Nat → Bool) : Str → List Str
  | [] => [[]]
  | c :: rest =>
    if p c then [] :: rustSplit p rest
    else
      match rustSplit p rest with
      | w :: ws => (c :: w) :: ws
      | [] => [[c]]

/-! ## The `heck` 0.3 case-conversion algorithm

`Ident::from_str` and `TypeName::new` rely on `heck`'s `to_snake_case`,
`to_mixed_case` and `to_camel_case`.  `heck` first splits the input into
maximal alphanumeric runs, then splits each run at case boundaries with a
small word-mode state machine, and finally joins the resulting words with a
per-flavour `with_word` action and `boundary` separator.  The source's inner
skip-underscore branch is unreachable (runs never contain an underscore, which
is not alphanumeric) and is omitted here. -/

/-- The word-mode of `heck`'s `transform` state machine. -/
inductive WordMode where
  | boundary
  | lower
  | upper
deriving DecidableEq, Repr

/-- The `next_mode` computation of `heck::transform`: the mode including the
current character, assuming it does not end the word. -/
def nextModeOf (c : Nat) (mode : WordMode) : WordMode :=
  if isLowerC c then WordMode.lower
  else if isUpperC c then WordMode.upper
  else mode

/-- The inner loop of `heck::transform` over one alphanumeric run: splits the
run at case boundaries.  `acc` is the part of the current word scanned so far
(`word[init..i]` in the source). -/
def splitWordGo : Str → Str → WordMode → List Str
  | [], _acc, _mode => []
  | [c], acc, _mode => [acc ++ [c]]
  | c :: next :: rest, acc, mode =>
    if next = 95 || (nextModeOf c mode = WordMode.lower && isUpperC next) then
      (acc ++ [c]) :: splitWordGo (next :: rest) [] WordMode.boundary
    else if mode = WordMode.upper && isUpperC c && isLowerC next then
      acc :: splitWordGo (next :: rest) [c] WordMode.boundary
    else
      splitWordGo (next :: rest) (acc ++ [c]) (nextModeOf c mode)

/-- Split one alphanumeric run at case boundaries. -/
def splitWord (w : Str) : List Str := splitWordGo w [] WordMode.boundary

/-- The emission loop of `heck::transform`: `boundary` before every word but
the first, then `with_word`, which appends to the output. -/
def transformGo (withWord : Str → Str → Str) (boundary : Str → Str) :
    List Str → Str → Bool → Str
  | [], out, _first => out
  | w :: ws, out, first =>
    let out1 := if first then out else boundary out
    transformGo withWord boundary ws (withWord w out1) false

/-- `heck::transform`: split into alphanumeric runs, split each run at case
boundaries, emit every word (the `first_word` flag of the source is global
across runs, and an empty run emits no word, so flattening first is exact). -/
def transform (withWord : Str → Str → Str) (boundary : Str → Str) (s : Str) : Str :=
  transformGo withWord boundary
    ((rustSplit (fun c => !isAlphanumericC c) s).flatMap splitWord) [] true

/-- `heck`'s `lowercase` word action (the `Σ` special case is non-ASCII). -/
def lowercaseH (w out : Str) : Str := out ++ w.map toLowerC

/-- `heck`'s `capitalize` word action: first char uppercased, rest lowercased. -/
def capitalizeH (w out : Str) : Str :=
  match w with
  | [] => out
  | c :: cs => out ++ (toUpperC c :: cs.map toLowerC)

/-- `heck::SnakeCase::to_snake_case`. -/
def to_snake_case (s : Str) : Str := transform lowercaseH (fun out => out ++ [95]) s

/-- `heck::CamelCase::to_camel_case`. -/
def to_camel_case (s : Str) : Str := transform capitalizeH id s

/-- `heck::MixedCase::to_mixed_case`: the first word (detected via emptiness
of the output so far, as in the source) is lowercased, later ones capitalized. -/
def to_mixed_case (s : Str) : Str :=
  transform (fun w out => if out.isEmpty then lowercaseH w out else capitalizeH w out)
    id s

/-! ## Error type and outcomes -/

/-- The library's `Error` enum (the variants the modelled functions use; the
source's `UnsupportedKind` carries the offending `SchemaKind`, dropped here as
no theorem inspects it). -/
inductive Error where
  | BadReference (r : Str)
  | UnexpectedReference (r : Str)
  | UnsupportedKind
  | EmptyStruct
  | NotStructurallyTyped
  | MalformedPath (p : Str)
  | NoOperationId (p : Str)
  | Todo (msg : Str)
  | BadIdentifier (s : Str)
  | BadTypeName (s : Str)
  | DuplicateName (s : Str)
deriving DecidableEq, Repr

/-- Result of running a fallible Rust computation: a value, a typed
`Err(Error)`, a panic (`todo!`, `unwrap` — the payload is the panic message,
without Rust's surrounding quotes), or `diverge`, which marks exhaustion of
the explicit fuel that makes the source's unbounded recursion total here. -/
inductive Outcome (α : Type) where
  | ok (a : α)
  | err (e : Error)
  | panic (msg : Str)
  | diverge
deriving DecidableEq, Repr

/-- Sequencing of outcomes (Rust's `?` / `and_then`). -/
def Outcome.bind {α β : Type} : Outcome α → (α → Outcome β) → Outcome β
  | .ok a, f => f a
  | .err e, _ => .err e
  | .panic m, _ => .panic m
  | .diverge, _ => .diverge

/-- Lift a `Result` into an `Outcome`. -/
def liftE {α : Type} : Except Error α → Outcome α
  | .ok a => .ok a
  | .error e => .err e

/-- `IndexMap::get`, on the association-list model of an `IndexMap` (keys are
unique, so first-match lookup is exact). -/
def lookupGet {α : Type} : List (Str × α) → Str → Option α
  | [], _ => none
  | (k, v) :: rest, key => if k = key then some v else lookupGet rest key

/-! ## Name validation (`Ident`, `TypeName`) -/

/-- A validated snake_case identifier (`struct Ident(String)`). -/
structure Ident where
  val : Str
deriving DecidableEq, Repr

/-- `impl FromStr for Ident`: accept the input iff it equals its own
snake-cased or mixed-cased form; store the snake-cased form. -/
def Ident.from_str (val : Str) : Except Error Ident :=
  let snake := to_snake_case val
  let mixed := to_mixed_case val
  if val = snake ∨ val = mixed then .ok ⟨snake⟩ else .error (.BadIdentifier val)

/-- A validated CamelCase type name (`struct TypeName(String)`). -/
structure TypeName where
  val : Str
deriving DecidableEq, Repr

/-- `TypeName::new`: accept the input iff it equals its own camel-cased form;
store the input unchanged. -/
def TypeName.new (val : Str) : Except Error TypeName :=
  if val = to_camel_case val then .ok ⟨val⟩ else .error (.BadTypeName val)

/-! ## Reference resolution -/

/-- `extract_ref_name`: the reference must start with `#` and split on `/`
into exactly four parts with `components` and `schemas` as the middle two;
the final part must be a valid `TypeName`. -/
def extract_ref_name (refr : Str) : Except Error TypeName :=
  if refr.head? ≠ some 35 then .error (.BadReference refr)
  else
    match rustSplit (fun c => c = 47) refr with
    | [_p0, p1, p2, p3] =>
      if p1 = chars "components" ∧ p2 = chars "schemas" then TypeName.new p3
      else .error (.BadReference refr)
    | _ => .error (.BadReference refr)

/-- `openapiv3::ReferenceOr`. -/
inductive ReferenceOr (α : Type) where
  | Reference (reference : Str)
  | Item (item : α)
deriving DecidableEq, Repr

/-! ## The OpenAPI schema document model (`openapiv3` crate)

Only the components the library inspects are modelled.  `SchemaData` keeps the
two fields the code gen reads (`nullable`, `description`); `SchemaKind`'s
unsupported variants are represented by `oneOf` (the source's `OneOf`,
`AnyOf`, `Not` all fall into the same catch-all `UnsupportedKind` arm).
`Box` indirections of the crate (`ReferenceOr<Box<Schema>>` plus `unbox`) are
identities here. -/

/-- `openapiv3::SchemaData` (the inspected fields). -/
structure SchemaData where
  nullable : Bool
  description : Option Str
deriving DecidableEq, Repr

mutual

/-- `openapiv3::Schema`. -/
inductive Schema where
  | mk (schema_data : SchemaData) (schema_kind : SchemaKind)

/-- `openapiv3::SchemaKind`. -/
inductive SchemaKind where
  | type (t : ApiType)
  | oneOf (one_of : List (ReferenceOr Schema))
  | allOf (all_of : List (ReferenceOr Schema))
  | any (a : AnySchema)

/-- `openapiv3::Type` (`ApiType` in the source's imports); the payloads of
the scalar variants are not inspected and are omitted. -/
inductive ApiType where
  | string
  | number
  | integer
  | boolean
  | array (items : ReferenceOr Schema)
  | object (o : ObjectType)

/-- `openapiv3::ObjectType` (the `ObjectLike` view: `properties`, `required`). -/
inductive ObjectType where
  | mk (properties : List (Str × ReferenceOr Schema)) (required : List Str)

/-- `openapiv3::AnySchema` (the `ObjectLike` view: `properties`, `required`). -/
inductive AnySchema where
  | mk (properties : List (Str × ReferenceOr Schema)) (required : List Str)

end

def Schema.schema_data : Schema → SchemaData
  | .mk d _ => d

def Schema.schema_kind : Schema → SchemaKind
  | .mk _ k => k

def ObjectType.properties : ObjectType → List (Str × ReferenceOr Schema)
  | .mk p _ => p

def ObjectType.required : ObjectType → List Str
  | .mk _ r => r

def AnySchema.properties : AnySchema → List (Str × ReferenceOr Schema)
  | .mk p _ => p

def AnySchema.required : AnySchema → List Str
  | .mk _ r => r

/-- The schemas lookup table (`IndexMap<String, ReferenceOr<Schema>>`). -/
abbrev SchemaLookup := List (Str × ReferenceOr Schema)

/-- `validate_schema_ref_depth`.  The source recurses with `depth + 1` under
the guard `depth > 20`; that recursion is made structural here by the `fuel`
argument, kept equal to `22 - depth` (the top-level call uses fuel 22 and
depth 0, and the fuel-0 branch coincides with the guard, which has already
fired by then). -/
def validate_schema_ref_depth (lookup : SchemaLookup) :
    Nat → Str → Nat → Except Error (TypeName × SchemaData)
  | 0, refr, _depth => .error (.BadReference refr)
  | fuel + 1, refr, depth =>
    if depth > 20 then .error (.BadReference refr)
    else
      match extract_ref_name refr with
      | .error e => .error e
      | .ok name =>
        match lookupGet lookup name.val with
        | none => .error (.BadReference refr)
        | some (.Reference reference) =>
          match validate_schema_ref_depth lookup fuel reference (depth + 1) with
          | .ok (_, meta) => .ok (name, meta)
          | .error e => .error e
        | some (.Item schema) => .ok (name, schema.schema_data)

/-- `validate_schema_ref`: check that a reference chain resolves, returning
the first name and the terminal schema's metadata. -/
def validate_schema_ref (refr : Str) (schema_lookup : SchemaLookup) :
    Except Error (TypeName × SchemaData) :=
  validate_schema_ref_depth schema_lookup 22 refr 0

/-- `dereference`: fetch a reference target via a lookup, following stored
references recursively.  The source recursion is unbounded (a cyclic table
loops forever); `fuel` makes it total, `.diverge` standing for exhaustion. -/
def dereference {α : Type} : Nat → ReferenceOr α → List (Str × ReferenceOr α) → Outcome α
  | _fuel, .Item item, _ => .ok item
  | 0, .Reference _, _ => .diverge
  | fuel + 1, .Reference reference, lookup =>
    match lookupGet lookup reference with
    | none => .err (.BadReference reference)
    | some refr => dereference fuel refr lookup

/-! ## Route paths -/

/-- A path segment: literal or `\x7bname\x7d` parameter. -/
inductive PathSegment where
  | literal (s : Str)
  | parameter (s : Str)
deriving DecidableEq, Repr

/-- `struct RoutePath`. -/
structure RoutePath where
  segments : List PathSegment
deriving DecidableEq, Repr

/-- The regex `^[[:alpha:]]+$` (`literal_re`). -/
def literalMatch (seg : Str) : Bool := !seg.isEmpty && seg.all isAlphaC

/-- The capture of regex `^\x7b([[:alpha:]]+)\x7d$` (`param_re`): the segment
must begin with `\x7b` (code 123), end with `\x7d` (code 125), and everything
between — the capture — must be nonempty and all-alphabetic. -/
def paramCapture (seg : Str) : Option Str :=
  if seg.head? = some 123 ∧ seg.getLast? = some 125 then
    let mid := seg.tail.dropLast
    if !mid.isEmpty && mid.all isAlphaC then some mid else none
  else none

/-- The segment loop of `RoutePath::analyse`: empty segments are skipped
(trailing slashes), literals and parameters are classified, anything else
aborts with `MalformedPath` carrying the whole path. -/
def analyseSegments (path : Str) : List Str → Except Error (List PathSegment)
  | [] => .ok []
  | seg :: rest =>
    if seg.isEmpty then analyseSegments path rest
    else if literalMatch seg then
      match analyseSegments path rest with
      | .ok segs => .ok (.literal seg :: segs)
      | .error e => .error e
    else
      match paramCapture seg with
      | some name =>
        match analyseSegments path rest with
        | .ok segs => .ok (.parameter name :: segs)
        | .error e => .error e
      | none => .error (.MalformedPath path)

/-- `RoutePath::analyse`: the path must be nonempty and start with `/`; the
`/`-separated pieces after the first are classified segment by segment. -/
def RoutePath.analyse (path : Str) : Except Error RoutePath :=
  if path.isEmpty || path.head? ≠ some 47 then .error (.MalformedPath path)
  else
    match analyseSegments path ((rustSplit (fun c => c = 47) path).drop 1) with
    | .ok segs => .ok ⟨segs⟩
    | .error e => .error e

/-- `RoutePath::build_template` (and the identical `Display` impl): literals
render as `/lit`, parameters as the positional placeholder `/\x7b\x7d`. -/
def RoutePath.build_template (rp : RoutePath) : Str :=
  rp.segments.flatMap fun
    | .literal p => 47 :: p
    | .parameter _ => [47, 123, 125]

/-! ## The type IR

The source's `Type` is `TypeWithMeta<TypeInner>` and `StructOrType` is
`TypeWithMeta<Either<Struct, TypeInner>>`.  `Type` is a reserved word in
Lean, so `TypeWithMeta<TypeInner>` is the mutual inductive `HType` here,
and `Either` is the two-constructor `REither` below. -/

mutual

/-- `Type = TypeWithMeta<TypeInner>`: an IR node with its metadata. -/
inductive HType where
  | mk (meta : SchemaData) (typ : TypeInner)

/-- `enum TypeInner`. -/
inductive TypeInner where
  | string
  | f64
  | i64
  | bool
  | array (inner : HType)
  | option (inner : HType)
  | any
  | named (name : TypeName)

end

def HType.meta : HType → SchemaData
  | .mk m _ => m

def HType.typ : HType → TypeInner
  | .mk _ t => t

/-- `Type::to_option`: wrap in `Option`, duplicating the metadata. -/
def HType.to_option (t : HType) : HType :=
  .mk t.meta (.option t)

/-- `either::Either`. -/
inductive REither (α β : Type) where
  | Left (a : α)
  | Right (b : β)
deriving DecidableEq, Repr

/-- `struct Field`. -/
structure Field where
  name : Ident
  ty : HType

/-- `struct Struct`. -/
structure Struct where
  fields : List Field

/-- `StructOrType = TypeWithMeta<Either<Struct, TypeInner>>`. -/
structure StructOrType where
  meta : SchemaData
  typ : REither Struct TypeInner

/-- `StructOrType::discard_struct`: structs are rejected where only a
plain type is allowed. -/
def StructOrType.discard_struct (s : StructOrType) : Except Error HType :=
  match s.typ with
  | .Right typ => .ok (.mk s.meta typ)
  | .Left _ => .error .NotStructurallyTyped

/-- `TypeInner::with_meta_either`. -/
def TypeInner.with_meta_either (t : TypeInner) (meta : SchemaData) : StructOrType :=
  ⟨meta, .Right t⟩

/-- `Struct::with_meta_either`. -/
def Struct.with_meta_either (s : Struct) (meta : SchemaData) : StructOrType :=
  ⟨meta, .Left s⟩

/-- `Struct::new`: a struct must have at least one field. -/
def Struct.new (fields : List Field) : Except Error Struct :=
  if fields.isEmpty then .error .EmptyStruct else .ok ⟨fields⟩

/-! ## Type graph building -/

/-- The property loop of `Struct::from_objlike`, abstracted over the type
builder `bt` (the source calls `build_type` directly; the abstraction ties
the mutual recursion knot through the fuel in `build_type` below): build the
property's type, discard structs, wrap in `Option` iff the name is not in
the `required` set, parse the name as an `Ident`, append the field. -/
def from_objlike_fields (bt : ReferenceOr Schema → Outcome StructOrType)
    (required : List Str) : List (Str × ReferenceOr Schema) → Outcome (List Field)
  | [] => .ok []
  | (name, schemaref) :: rest =>
    Outcome.bind (bt schemaref) fun st =>
    Outcome.bind (liftE st.discard_struct) fun ty0 =>
    let ty := if required.contains name then ty0 else ty0.to_option
    Outcome.bind (liftE (Ident.from_str name)) fun nm =>
    Outcome.bind (from_objlike_fields bt required rest) fun fs =>
    .ok (⟨nm, ty⟩ :: fs)

/-- `Struct::from_objlike` over the `ObjectLike` view (`properties` in
declared order, `required`). -/
def Struct.from_objlike (bt : ReferenceOr Schema → Outcome StructOrType)
    (properties : List (Str × ReferenceOr Schema)) (required : List Str) :
    Outcome Struct :=
  Outcome.bind (from_objlike_fields bt required properties) fun fields =>
  liftE (Struct.new fields)

/-- `Iterator::collect::<Result<Vec<_>>>` over a mapped list: first failure
wins, later elements are not evaluated. -/
def outcomeMapM {α β : Type} (g : α → Outcome β) : List α → Outcome (List β)
  | [] => .ok []
  | a :: rest =>
    Outcome.bind (g a) fun b =>
    Outcome.bind (outcomeMapM g rest) fun bs =>
    .ok (b :: bs)

/-- `build_type`: convert a schema node to the IR.  A bare reference becomes
`Named` after `validate_schema_ref`; `Any` schemas with properties and
`object` types go through `Struct::from_objlike`; `allOf` builds its
constituents and then hits the source's bare `todo!()` (the commented-out
`combine_types` call is never made); other kinds are `UnsupportedKind`.
`fuel` makes the structural recursion on the schema tree explicit; every
recursive call decrements it. -/
def build_type : Nat → SchemaLookup → ReferenceOr Schema → Outcome StructOrType
  | 0, _, _ => .diverge
  | _fuel + 1, schema_lookup, .Reference reference =>
    (match validate_schema_ref reference schema_lookup with
     | .ok (name, meta) => .ok ((TypeInner.named name).with_meta_either meta)
     | .error e => .err e)
  | fuel + 1, schema_lookup, .Item schema =>
    let meta := schema.schema_data
    match schema.schema_kind with
    | .type t =>
      match t with
      | .string => .ok (TypeInner.string.with_meta_either meta)
      | .number => .ok (TypeInner.f64.with_meta_either meta)
      | .integer => .ok (TypeInner.i64.with_meta_either meta)
      | .boolean => .ok (TypeInner.bool.with_meta_either meta)
      | .array arr =>
        Outcome.bind (build_type fuel schema_lookup arr) fun st =>
        Outcome.bind (liftE st.discard_struct) fun inner =>
        .ok ((TypeInner.array inner).with_meta_either meta)
      | .object obj =>
        Outcome.bind
          (Struct.from_objlike (build_type fuel schema_lookup) obj.properties obj.required)
          fun s => .ok (s.with_meta_either meta)
    | .any obj =>
      if obj.properties.isEmpty then .ok (TypeInner.any.with_meta_either meta)
      else
        Outcome.bind
          (Struct.from_objlike (build_type fuel schema_lookup) obj.properties obj.required)
          fun s => .ok (s.with_meta_either meta)
    | .allOf schemas =>
      Outcome.bind (outcomeMapM (build_type fuel schema_lookup) schemas) fun _allof_types =>
      .panic (chars "not yet implemented")
    | .oneOf _ => .err .UnsupportedKind

/-! ## `combine_types` (dead code in the source: its only call site is
commented out under the `allOf` arm of `build_type`) -/

/-- Insert a struct's fields into the accumulated `IndexMap<&Ident, &Field>`;
a repeated key is `DuplicateName`. -/
def insertFields (acc : List (Ident × Field)) : List Field → Except Error (List (Ident × Field))
  | [] => .ok acc
  | f :: fs =>
    if acc.any (fun p => p.1 = f.name) then .error (.DuplicateName f.name.val)
    else insertFields (acc ++ [(f.name, f)]) fs

/-- The constituent loop of `combine_types`: non-struct constituents are
rejected, struct fields are inserted in order. -/
def combine_go (acc : List (Ident × Field)) : List StructOrType → Except Error (List (Ident × Field))
  | [] => .ok acc
  | t :: rest =>
    match t.typ with
    | .Right _other => .error (.Todo (chars "Only object-like types allowed in AllOf types"))
    | .Left strukt =>
      match insertFields acc strukt.fields with
      | .ok acc2 => combine_go acc2 rest
      | .error e => .error e

/-- `combine_types` (the unused `lookup` parameter is the source's). -/
def combine_types (types : List StructOrType)
    (_lookup : List (Str × ReferenceOr StructOrType)) : Except Error Struct :=
  match combine_go [] types with
  | .ok fields => Struct.new (fields.map (fun p => p.2))
  | .error e => .error e

/-! ## Response body resolution -/

/-- `openapiv3::MediaType` (the inspected field). -/
structure MediaType where
  schema : Option (ReferenceOr Schema)

/-- `openapiv3::Response`: `headers` and `links` are only tested for
emptiness and are modelled as bare lists; `content` is the media-type map. -/
structure Response where
  headers : List Unit
  links : List Unit
  content : List (Str × MediaType)

/-- The responses lookup table. -/
abbrev ResponseLookup := List (Str × ReferenceOr Response)

/-- `get_type_of_response`: dereference the response, reject (by panicking
`todo!`) headers, links and any content other than a single
`application/json` entry, and otherwise build the body type, if any.
`fuel` feeds both `dereference` and `build_type`. -/
def get_type_of_response (fuel : Nat) (ref_or_resp : ReferenceOr Response)
    (response_lookup : ResponseLookup) (schema_lookup : SchemaLookup) :
    Outcome (Option HType) :=
  Outcome.bind (dereference fuel ref_or_resp response_lookup) fun resp =>
  if !resp.headers.isEmpty then
    .panic (chars "not yet implemented: response headers not supported")
  else if !resp.links.isEmpty then
    .panic (chars "not yet implemented: response links not supported")
  else if resp.content.isEmpty then .ok none
  else if !(resp.content.length = 1 && (lookupGet resp.content (chars "application/json")).isSome) then
    .panic (chars "not yet implemented: content type must be application/json")
  else
    match lookupGet resp.content (chars "application/json") with
    | none => .panic (chars "called Option::unwrap on a None value")
    | some media =>
      match media.schema with
      | none => .panic (chars "not yet implemented: Media type does not contain schema")
      | some ref_or_schema =>
        Outcome.bind (build_type fuel schema_lookup ref_or_schema) fun st =>
        Outcome.bind (liftE st.discard_struct) fun t =>
        .ok (some t)

/-! ## Verification-side definitions

Everything below is proof machinery, spec-side predicates for the refinement
statements, and concrete inputs used by closed theorems; nothing below models
source code unless said so. -/

/-- Is an `Except` a success? -/
def isOkE {α : Type} : Except Error α → Bool
  | .ok _ => true
  | .error _ => false

/-- `c` is an ASCII lowercase letter or digit (the character set of
`to_snake_case` output). -/
def isLowerDigit (c : Nat) : Bool := isLowerC c || isDigitC c

/-- Join words with a separator character. -/
def sepJoin (sep : Nat) : List Str → Str
  | [] => []
  | w :: ws => w ++ ws.flatMap (fun v => sep :: v)

/-- The case-boundary words of a string, before the per-flavour rendering
(the list `heck::transform` emits). -/
def piecesOf (s : Str) : List Str :=
  (rustSplit (fun c => !isAlphanumericC c) s).flatMap splitWord

/-- `heck::capitalize` as a word-to-word function. -/
def capWord : Str → Str
  | [] => []
  | c :: cs => toUpperC c :: cs.map toLowerC

/-- Classify one path segment the way the `RoutePath::analyse` loop does
(`none` for an empty segment, which the loop skips). -/
def parseSeg (seg : Str) : Option PathSegment :=
  if seg.isEmpty then none
  else if literalMatch seg then some (.literal seg)
  else (paramCapture seg).map .parameter

/-- A nonempty segment the analyser accepts. -/
def validSeg (seg : Str) : Bool := literalMatch seg || (paramCapture seg).isSome

/-- Modelled from the spec: a nonempty `/`-delimited segment must be "either
a pure-alphabetic literal or a single `\x7balphabeticName\x7d` parameter"
(`123` and `125` are the brace code points). -/
def SpecSegOk (s : Str) : Prop :=
  (s ≠ [] ∧ ∀ c ∈ s, isAlphaC c = true) ∨
  (∃ name, name ≠ [] ∧ (∀ c ∈ name, isAlphaC c = true) ∧ s = 123 :: (name ++ [125]))

/-- Modelled from the spec: the strings path analysis should accept — they
"start with `/`" and their "non-empty `/`-delimited segments" each satisfy
the segment grammar. -/
def SpecAcceptsPath (p : Str) : Prop :=
  p.head? = some 47 ∧ ∀ s ∈ rustSplit (fun c => c = 47) p, s ≠ [] → SpecSegOk s

/-- Does a route path contain a parameter segment? -/
def RoutePath.hasParam (rp : RoutePath) : Bool :=
  rp.segments.any fun
    | .parameter _ => true
    | .literal _ => false

/-- The piece of the rendered template between two slashes: the literal
itself, or the positional placeholder `\x7b\x7d` for a parameter. -/
def segPiece : PathSegment → Str
  | .literal l => l
  | .parameter _ => [123, 125]

/-- The reference pointer `#/components/schemas/<n>`. -/
def mkSchemaRef (n : Str) : Str := chars "#/components/schemas/" ++ n

/-- Every name in the list is already camel-cased (`TypeName`-valid). -/
def camelAll (ns : List Str) : Bool := ns.all (fun n => decide (to_camel_case n = n))

/-- The names form a reference chain through `lookup`: each maps to a
reference to the next, and the last maps to a plain schema item. -/
def chainOk (lookup : SchemaLookup) : List Str → Bool
  | [] => false
  | [n] =>
    match lookupGet lookup n with
    | some (.Item _) => true
    | _ => false
  | n :: m :: rest =>
    (match lookupGet lookup n with
     | some (.Reference r) => decide (r = mkSchemaRef m)
     | _ => false) && chainOk lookup (m :: rest)

/-- The metadata of the chain's terminal schema. -/
def chainData (lookup : SchemaLookup) : List Str → Option SchemaData
  | [] => none
  | [n] =>
    match lookupGet lookup n with
    | some (.Item s) => some s.schema_data
    | _ => none
  | _ :: rest => chainData lookup rest

/-- Build a concrete chain lookup table: each name references the next, the
last maps to `terminal`. -/
def chainLookup (terminal : Schema) : List Str → SchemaLookup
  | [] => []
  | [n] => [(n, .Item terminal)]
  | n :: m :: rest => (n, .Reference (mkSchemaRef m)) :: chainLookup terminal (m :: rest)

/-- A concrete terminal schema with recognizable metadata. -/
def schX : Schema := .mk ⟨false, some (chars "terminal")⟩ (.type .string)

/-- Single-uppercase-letter names `A`, `B`, ... (all `TypeName`-valid). -/
def letterNames (k : Nat) : List Str := (List.range k).map (fun i => [65 + i])

/-- Top-of-node `Option` test. -/
def TypeInner.isOption : TypeInner → Bool
  | .option _ => true
  | _ => false

/-- No `Option` node directly wraps another `Option` node, recursively. -/
def TypeInner.noOptOptI : TypeInner → Bool
  | .array (.mk _ t) => t.noOptOptI
  | .option (.mk _ t) => !t.isOption && t.noOptOptI
  | _ => true

/-- `noOptOptI` through the metadata wrapper. -/
def HType.noOptOpt (t : HType) : Bool := t.typ.noOptOptI

/-- The invariant on a built `StructOrType`: no double-`Option` anywhere,
including inside struct fields. -/
def StructOrType.noOptOptE (st : StructOrType) : Bool :=
  match st.typ with
  | .Left s => s.fields.all (fun f => f.ty.noOptOpt)
  | .Right t => t.noOptOptI

/-- Default (empty) schema metadata for concrete examples. -/
def mdef : SchemaData := ⟨false, none⟩

/-- The claim C6 example: properties `id: integer`, `name: string`,
`tag: string`. -/
def propsEx : List (Str × ReferenceOr Schema) :=
  [(chars "id", .Item (.mk mdef (.type .integer))),
   (chars "name", .Item (.mk mdef (.type .string))),
   (chars "tag", .Item (.mk mdef (.type .string)))]

/-- A one-field struct `id : i64`. -/
def structIdI64 : Struct := ⟨[⟨⟨chars "id"⟩, .mk mdef .i64⟩]⟩

/-- A one-field struct `id : String`. -/
def structIdStr : Struct := ⟨[⟨⟨chars "id"⟩, .mk mdef .string⟩]⟩

/-- A concrete response whose only content entry is not JSON. -/
def respNonJson : Response := ⟨[], [], [(chars "text/plain", ⟨none⟩)]⟩

/-- A concrete `allOf` schema whose two constituents are objects sharing the
field name `id` (the scenario claim C2 says yields `DuplicateName`). -/
def allOfDupSchema : Schema :=
  .mk mdef (.allOf
    [.Item (.mk mdef (.type (.object (.mk [(chars "id", .Item (.mk mdef (.type .integer)))] [chars "id"])))),
     .Item (.mk mdef (.type (.object (.mk [(chars "id", .Item (.mk mdef (.type .string)))] [chars "id"]))))])

/-- One-field correspondence used for C6 and C10: the property, the field it
produced, and how the `required` list decided the `Optional` wrapping. -/
def fieldSpec (bt : ReferenceOr Schema → Outcome StructOrType) (required : List Str)
    (p : Str × ReferenceOr Schema) (f : Field) : Prop :=
  ∃ t nm, Outcome.bind (bt p.2) (fun st => liftE st.discard_struct) = .ok t ∧
    Ident.from_str p.1 = .ok nm ∧
    f = ⟨nm, if required.contains p.1 then t else t.to_option⟩

/-! # Theorems

First the lemma layer: splitting, the `heck` pipeline, and idempotence of
`to_snake_case`. -/

theorem rustSplit_ne_nil (p : Nat → Bool) (s : Str) : rustSplit p s ≠ [] := by
  induction s with
  | nil => simp [rustSplit]
  | cons c rest ih =>
    rw [rustSplit]
    split
    · simp
    · rcases h : rustSplit p rest with - | ⟨w, ws⟩ <;> simp [h]

theorem rustSplit_mem_not (p : Nat → Bool) (s : Str) :
    ∀ w ∈ rustSplit p s, ∀ c ∈ w, p c = false := by
  induction s with
  | nil =>
    intro w hw c hc
    simp [rustSplit] at hw
    subst hw
    simp at hc
  | cons a rest ih =>
    intro w hw c hc
    rw [rustSplit] at hw
    by_cases hp : p a
    · simp [hp] at hw
      rcases hw with h | h
      · subst h; simp at hc
      · exact ih w h c hc
    · rw [if_neg (by simp [hp])] at hw
      rcases hres : rustSplit p rest with - | ⟨w0, ws⟩
      · exact absurd hres (rustSplit_ne_nil p rest)
      · rw [hres] at hw
        rcases List.mem_cons.mp hw with h | h
        · subst h
          rcases List.mem_cons.mp hc with h2 | h2
          · subst h2; simpa using hp
          · exact ih w0 (by rw [hres]; exact List.mem_cons_self _ _) c h2
        · exact ih w (by rw [hres]; exact List.mem_cons_of_mem _ h) c hc

theorem rustSplit_all_keep (p : Nat → Bool) (s : Str) (h : ∀ c ∈ s, p c = false) :
    rustSplit p s = [s] := by
  induction s with
  | nil => rfl
  | cons a rest ih =>
    rw [rustSplit, if_neg (by simp [h a (List.mem_cons_self _ _)]),
      ih (fun c hc => h c (List.mem_cons_of_mem _ hc))]

theorem rustSplit_append_sep (p : Nat → Bool) (w t : Str) (sep : Nat)
    (hw : ∀ c ∈ w, p c = false) (hsep : p sep = true) :
    rustSplit p (w ++ sep :: t) = w :: rustSplit p t := by
  induction w with
  | nil => simp [rustSplit, hsep]
  | cons a rest ih =>
    rw [List.cons_append, rustSplit, if_neg (by simp [hw a (List.mem_cons_self _ _)]),
      ih (fun c hc => hw c (List.mem_cons_of_mem _ hc))]

theorem transformGo_snake_false (pieces : List Str) (out : Str) :
    transformGo lowercaseH (fun o => o ++ [95]) pieces out false =
      out ++ pieces.flatMap (fun w => 95 :: w.map toLowerC) := by
  induction pieces generalizing out with
  | nil => simp [transformGo]
  | cons w ws ih => simp [transformGo, lowercaseH, ih]

theorem transformGo_snake_true (pieces : List Str) (out : Str) :
    transformGo lowercaseH (fun o => o ++ [95]) pieces out true =
      out ++ sepJoin 95 (pieces.map (List.map toLowerC)) := by
  cases pieces with
  | nil => simp [transformGo, sepJoin]
  | cons w ws =>
    rw [transformGo, if_pos rfl, transformGo_snake_false, List.map_cons, sepJoin,
      List.flatMap_map, lowercaseH]
    simp [List.append_assoc]

theorem to_snake_case_eq (s : Str) :
    to_snake_case s = sepJoin 95 ((piecesOf s).map (List.map toLowerC)) := by
  rw [to_snake_case, transform, transformGo_snake_true, piecesOf, List.nil_append]

theorem splitWordGo_sound (w : Str) :
    ∀ acc mode, (mode = WordMode.upper → acc ≠ []) →
    ∀ pw ∈ splitWordGo w acc mode, pw ≠ [] ∧ ∀ c ∈ pw, c ∈ acc ∨ c ∈ w := by
  induction w with
  | nil =>
    intro acc mode _ pw hpw
    simp [splitWordGo] at hpw
  | cons a rest ih =>
    intro acc mode hmode pw hpw
    cases rest with
    | nil =>
      simp [splitWordGo] at hpw
      subst hpw
      refine ⟨by simp, fun c hc => ?_⟩
      rcases List.mem_append.mp hc with h | h
      · exact Or.inl h
      · simp at h; subst h; simp
    | cons b rest2 =>
      rw [splitWordGo] at hpw
      split at hpw
      · rcases List.mem_cons.mp hpw with h | hpw
        · subst h
          refine ⟨by simp, fun c hc => ?_⟩
          rcases List.mem_append.mp hc with h | h
          · exact Or.inl h
          · simp at h; subst h; simp
        · have h2 := ih [] WordMode.boundary (by simp) pw hpw
          refine ⟨h2.1, fun c hc => ?_⟩
          rcases h2.2 c hc with h | h
          · simp at h
          · exact Or.inr (List.mem_cons_of_mem _ h)
      · split at hpw
        · rename_i hcond3
          rcases List.mem_cons.mp hpw with h | hpw
          · subst h
            simp only [Bool.and_eq_true, decide_eq_true_eq] at hcond3
            exact ⟨hmode hcond3.1.1, fun c hc => Or.inl hc⟩
          · have h2 := ih [a] WordMode.boundary (by simp) pw hpw
            refine ⟨h2.1, fun c hc => ?_⟩
            rcases h2.2 c hc with h | h
            · simp at h; subst h; exact Or.inr (List.mem_cons_self _ _)
            · exact Or.inr (List.mem_cons_of_mem _ h)
        · have h2 := ih (acc ++ [a]) (nextModeOf a mode) (fun _ => by simp) pw hpw
          refine ⟨h2.1, fun c hc => ?_⟩
          rcases h2.2 c hc with h | h
          · rcases List.mem_append.mp h with h3 | h3
            · exact Or.inl h3
            · simp at h3; subst h3; exact Or.inr (List.mem_cons_self _ _)
          · exact Or.inr (List.mem_cons_of_mem _ h)

theorem piecesOf_sound (s : Str) :
    ∀ pw ∈ piecesOf s, pw ≠ [] ∧ ∀ c ∈ pw, isAlphanumericC c = true := by
  intro pw hpw
  rw [piecesOf] at hpw
  rcases List.mem_flatMap.mp hpw with ⟨w, hw, hmem⟩
  have hword := rustSplit_mem_not _ s w hw
  have h := splitWordGo_sound w [] WordMode.boundary (by simp) pw hmem
  refine ⟨h.1, fun c hc => ?_⟩
  rcases h.2 c hc with h2 | h2
  · simp at h2
  · simpa using hword c h2

theorem toLowerC_lowerdigit (c : Nat) (h : isAlphanumericC c = true) :
    isLowerDigit (toLowerC c) = true := by
  have h' : (97 ≤ c ∧ c ≤ 122) ∨ (65 ≤ c ∧ c ≤ 90) ∨ (48 ≤ c ∧ c ≤ 57) := by
    simpa [isAlphanumericC, isLowerC, isUpperC, isDigitC, or_assoc] using h
  rw [toLowerC]
  by_cases hu : isUpperC c = true
  · have h2 : 65 ≤ c ∧ c ≤ 90 := by simpa [isUpperC] using hu
    rw [if_pos hu]
    simp only [isLowerDigit, isLowerC, isDigitC, Bool.or_eq_true, Bool.and_eq_true,
      decide_eq_true_eq]
    omega
  · have h2 : ¬(65 ≤ c ∧ c ≤ 90) := by simpa [isUpperC] using hu
    rw [if_neg hu]
    simp only [isLowerDigit, isLowerC, isDigitC, Bool.or_eq_true, Bool.and_eq_true,
      decide_eq_true_eq]
    rcases h' with h3 | h3 | h3 <;> [exact Or.inl h3; exact absurd h3 h2; exact Or.inr h3]

theorem toLowerC_id (c : Nat) (h : isLowerDigit c = true) : toLowerC c = c := by
  have h' : (97 ≤ c ∧ c ≤ 122) ∨ (48 ≤ c ∧ c ≤ 57) := by
    simpa [isLowerDigit, isLowerC, isDigitC] using h
  have hu : ¬ isUpperC c = true := by
    simp only [isUpperC, Bool.and_eq_true, decide_eq_true_eq, not_and]
    rcases h' with h3 | h3 <;> omega
  rw [toLowerC, if_neg hu]

theorem lowerdigit_alnum (c : Nat) (h : isLowerDigit c = true) :
    isAlphanumericC c = true ∧ c ≠ 95 ∧ isUpperC c = false := by
  have h' : (97 ≤ c ∧ c ≤ 122) ∨ (48 ≤ c ∧ c ≤ 57) := by
    simpa [isLowerDigit, isLowerC, isDigitC] using h
  refine ⟨?_, ?_, ?_⟩
  · simp only [isAlphanumericC, isLowerC, isUpperC, isDigitC, Bool.or_eq_true, Bool.and_eq_true,
      decide_eq_true_eq]
    rcases h' with h3 | h3
    · exact Or.inl (Or.inl h3)
    · exact Or.inr h3
  · rcases h' with h3 | h3 <;> omega
  · have h2 : ¬(65 ≤ c ∧ c ≤ 90) := by rcases h' with h3 | h3 <;> omega
    rcases Bool.eq_false_or_eq_true (isUpperC c) with h3 | h3
    · exact absurd (by simpa [isUpperC] using h3) h2
    · exact h3

theorem splitWordGo_nf (w : Str) :
    ∀ acc mode, (∀ c ∈ w, isLowerDigit c = true) → mode ≠ WordMode.upper →
    splitWordGo w acc mode = (if w = [] then [] else [acc ++ w]) := by
  induction w with
  | nil => intro acc mode _ _; simp [splitWordGo]
  | cons a rest ih =>
    intro acc mode hchars hmode
    have ha := lowerdigit_alnum a (hchars a (List.mem_cons_self _ _))
    cases rest with
    | nil => simp [splitWordGo]
    | cons b rest2 =>
      have hb := lowerdigit_alnum b (hchars b (List.mem_cons_of_mem _ (List.mem_cons_self _ _)))
      have hnm : nextModeOf a mode ≠ WordMode.upper := by
        rw [nextModeOf]
        rcases Bool.eq_false_or_eq_true (isLowerC a) with hla | hla
        · rw [hla]
          simp
        · rw [hla]
          simp only [Bool.false_eq_true, if_false, ha.2.2]
          exact hmode
      rw [splitWordGo, if_neg (by simp [hb.2.1, hb.2.2]), if_neg (by simp [ha.2.2]),
        ih (acc ++ [a]) (nextModeOf a mode) (fun c hc => hchars c (List.mem_cons_of_mem _ hc)) hnm]
      simp

theorem flatMap_splitWord_self (ws : List Str)
    (h : ∀ w ∈ ws, w ≠ [] → (∀ c ∈ w, isLowerDigit c = true)) (hne : ∀ w ∈ ws, w ≠ []) :
    ws.flatMap splitWord = ws := by
  induction ws with
  | nil => rfl
  | cons w rest ih =>
    have h1 : splitWord w = [w] := by
      rw [splitWord, splitWordGo_nf w [] WordMode.boundary
        (h w (List.mem_cons_self _ _) (hne w (List.mem_cons_self _ _))) (by simp),
        if_neg (hne w (List.mem_cons_self _ _)), List.nil_append]
    rw [List.flatMap_cons, h1,
      ih (fun v hv => h v (List.mem_cons_of_mem _ hv)) (fun v hv => hne v (List.mem_cons_of_mem _ hv))]
    rfl

theorem map_toLowerC_id (w : Str) (h : ∀ c ∈ w, isLowerDigit c = true) :
    w.map toLowerC = w := by
  induction w with
  | nil => rfl
  | cons c rest ih =>
    rw [List.map_cons, toLowerC_id c (h c (List.mem_cons_self _ _)),
      ih (fun d hd => h d (List.mem_cons_of_mem _ hd))]

theorem map_map_toLowerC_id (ws : List Str) (h : ∀ u ∈ ws, ∀ c ∈ u, isLowerDigit c = true) :
    ws.map (List.map toLowerC) = ws := by
  induction ws with
  | nil => rfl
  | cons w rest ih =>
    rw [List.map_cons, map_toLowerC_id w (h w (List.mem_cons_self _ _)),
      ih (fun u hu => h u (List.mem_cons_of_mem _ hu))]

theorem rustSplit_sepJoin (p : Nat → Bool) (sep : Nat) (hsep : p sep = true)
    (ws : List Str) (hne : ws ≠ []) (h : ∀ w ∈ ws, ∀ c ∈ w, p c = false) :
    rustSplit p (sepJoin sep ws) = ws := by
  induction ws with
  | nil => exact absurd rfl hne
  | cons w rest ih =>
    cases rest with
    | nil =>
      rw [sepJoin, List.flatMap_nil, List.append_nil]
      exact rustSplit_all_keep p w (h w (List.mem_cons_self _ _))
    | cons v rest2 =>
      have hstep : sepJoin sep (w :: v :: rest2) = w ++ sep :: sepJoin sep (v :: rest2) := by
        simp [sepJoin]
      rw [hstep, rustSplit_append_sep p w _ sep (h w (List.mem_cons_self _ _)) hsep,
        ih (by simp) (fun u hu => h u (List.mem_cons_of_mem _ hu))]

theorem to_snake_case_nf (ws : List Str)
    (h : ∀ w ∈ ws, w ≠ [] ∧ ∀ c ∈ w, isLowerDigit c = true) :
    to_snake_case (sepJoin 95 ws) = sepJoin 95 ws := by
  cases ws with
  | nil => rfl
  | cons w rest =>
    rw [to_snake_case_eq, piecesOf]
    have hchars : ∀ u ∈ w :: rest, ∀ c ∈ u, (fun c => !isAlphanumericC c) c = false := by
      intro u hu c hc
      simp [((lowerdigit_alnum c ((h u hu).2 c hc)).1)]
    rw [rustSplit_sepJoin _ 95 (by simp [isAlphanumericC, isLowerC, isUpperC, isDigitC])
      (w :: rest) (by simp) hchars]
    rw [flatMap_splitWord_self _ (fun u hu _ => (h u hu).2) (fun u hu => (h u hu).1)]
    rw [map_map_toLowerC_id _ (fun u hu => (h u hu).2)]

theorem to_snake_case_idem (s : Str) :
    to_snake_case (to_snake_case s) = to_snake_case s := by
  rw [to_snake_case_eq s]
  apply to_snake_case_nf
  intro w hw
  rcases List.mem_map.mp hw with ⟨pw, hpw, rfl⟩
  have h := piecesOf_sound s pw hpw
  constructor
  · intro hnil
    exact h.1 (List.map_eq_nil_iff.mp hnil)
  · intro c hc
    rcases List.mem_map.mp hc with ⟨d, hd, rfl⟩
    exact toLowerC_lowerdigit d (h.2 d hd)

theorem capitalizeH_eq (w out : Str) : capitalizeH w out = out ++ capWord w := by
  cases w <;> simp [capitalizeH, capWord]

theorem transformGo_camel (pieces : List Str) (out : Str) (first : Bool) :
    transformGo capitalizeH id pieces out first = out ++ pieces.flatMap capWord := by
  induction pieces generalizing out first with
  | nil => simp [transformGo]
  | cons w ws ih =>
    rw [transformGo]
    have hfirst : (if first then out else id out) = out := by cases first <;> rfl
    rw [hfirst, capitalizeH_eq, ih, List.flatMap_cons, List.append_assoc]

theorem to_camel_case_eq (s : Str) : to_camel_case s = (piecesOf s).flatMap capWord := by
  rw [to_camel_case, transform, transformGo_camel, piecesOf, List.nil_append]

theorem toUpperC_alnum (c : Nat) (h : isAlphanumericC c = true) :
    isAlphanumericC (toUpperC c) = true := by
  have h' : (97 ≤ c ∧ c ≤ 122) ∨ (65 ≤ c ∧ c ≤ 90) ∨ (48 ≤ c ∧ c ≤ 57) := by
    simpa [isAlphanumericC, isLowerC, isUpperC, isDigitC, or_assoc] using h
  rw [toUpperC]
  by_cases hl : isLowerC c = true
  · have h2 : 97 ≤ c ∧ c ≤ 122 := by simpa [isLowerC] using hl
    rw [if_pos hl]
    simp only [isAlphanumericC, isLowerC, isUpperC, isDigitC, Bool.or_eq_true, Bool.and_eq_true,
      decide_eq_true_eq]
    omega
  · rw [if_neg hl]
    exact h

theorem toLowerC_alnum (c : Nat) (h : isAlphanumericC c = true) :
    isAlphanumericC (toLowerC c) = true :=
  (lowerdigit_alnum _ (toLowerC_lowerdigit c h)).1

theorem capWord_alnum (w : Str) (h : ∀ c ∈ w, isAlphanumericC c = true) :
    ∀ c ∈ capWord w, isAlphanumericC c = true := by
  cases w with
  | nil => intro c hc; simp [capWord] at hc
  | cons a rest =>
    intro c hc
    rw [capWord] at hc
    rcases List.mem_cons.mp hc with h2 | h2
    · subst h2; exact toUpperC_alnum a (h a (List.mem_cons_self _ _))
    · rcases List.mem_map.mp h2 with ⟨d, hd, rfl⟩
      exact toLowerC_alnum d (h d (List.mem_cons_of_mem _ hd))

theorem to_camel_case_alnum (s : Str) :
    ∀ c ∈ to_camel_case s, isAlphanumericC c = true := by
  intro c hc
  rw [to_camel_case_eq] at hc
  rcases List.mem_flatMap.mp hc with ⟨w, hw, hcw⟩
  exact capWord_alnum w (fun d hd => (piecesOf_sound s w hw).2 d hd) c hcw

theorem camel_fixed_alnum (n : Str) (h : to_camel_case n = n) :
    ∀ c ∈ n, isAlphanumericC c = true := by
  intro c hc
  exact to_camel_case_alnum n c (h.symm ▸ hc)

/-- Claim C8: identifier parsing accepts a raw string exactly when it equals
its snake-normalized or camel/mixed-normalized form, stores the
snake-normalized form, fails with `BadIdentifier` otherwise, and is
idempotent: re-parsing the canonical output of an accepted input succeeds
and yields the same value. -/
theorem ident_from_str_characterization :
    ∀ v : Str,
      ((∃ i, Ident.from_str v = .ok i) ↔ (v = to_snake_case v ∨ v = to_mixed_case v)) ∧
      ((∃ i, Ident.from_str v = .ok i) ∨ Ident.from_str v = .error (.BadIdentifier v)) ∧
      (∀ i, Ident.from_str v = .ok i → i.val = to_snake_case v ∧ Ident.from_str i.val = .ok i) := by
  intro v
  refine ⟨⟨?_, ?_⟩, ?_, ?_⟩
  · rintro ⟨i, hi⟩
    rw [Ident.from_str] at hi
    split at hi
    · next h => exact h
    · cases hi
  · intro h
    rw [Ident.from_str, if_pos h]
    exact ⟨_, rfl⟩
  · rw [Ident.from_str]
    split
    · exact Or.inl ⟨_, rfl⟩
    · exact Or.inr rfl
  · intro i hi
    rw [Ident.from_str] at hi
    split at hi
    · cases hi
      refine ⟨rfl, ?_⟩
      rw [Ident.from_str, if_pos (Or.inl (to_snake_case_idem v).symm), to_snake_case_idem]
    · cases hi

/-- Witness for C8 at the concrete mixed-case input `petId`, whose canonical
form is `pet_id`. -/
theorem ident_from_str_characterization_witness :
    Ident.from_str (chars "petId") = .ok ⟨chars "pet_id"⟩ ∧
    Ident.from_str (chars "pet_id") = .ok ⟨chars "pet_id"⟩ := by
  have h := (ident_from_str_characterization (chars "petId")).2.2 ⟨chars "pet_id"⟩ (by rfl)
  exact ⟨rfl, h.2⟩

/-- Claim C9: `TypeName` parsing accepts a raw string exactly when it equals
its camel-cased normalized form, fails with `BadTypeName` otherwise, and on
acceptance stores the input unchanged. -/
theorem typename_new_characterization :
    ∀ v : Str,
      ((∃ t, TypeName.new v = .ok t) ↔ v = to_camel_case v) ∧
      (∀ t, TypeName.new v = .ok t → t.val = v) ∧
      (v ≠ to_camel_case v → TypeName.new v = .error (.BadTypeName v)) := by
  intro v
  refine ⟨⟨?_, ?_⟩, ?_, ?_⟩
  · rintro ⟨t, ht⟩
    rw [TypeName.new] at ht
    split at ht
    · next h => exact h
    · cases ht
  · intro h
    rw [TypeName.new, if_pos h]
    exact ⟨_, rfl⟩
  · intro t ht
    rw [TypeName.new] at ht
    split at ht
    · cases ht; rfl
    · cases ht
  · intro h
    rw [TypeName.new, if_neg h]

/-- Witness for C9 at the accepted input `Pet` and the rejected input
`bad_name`. -/
theorem typename_new_characterization_witness :
    TypeName.new (chars "Pet") = .ok ⟨chars "Pet"⟩ ∧
    TypeName.new (chars "bad_name") = .error (.BadTypeName (chars "bad_name")) := by
  refine ⟨rfl, (typename_new_characterization (chars "bad_name")).2.2 ?_⟩
  decide

/-! ### Path analysis -/

theorem analyseSegments_error (path : Str) (segs : List Str) (e : Error)
    (h : analyseSegments path segs = .error e) : e = .MalformedPath path := by
  induction segs with
  | nil => cases h
  | cons seg rest ih =>
    rw [analyseSegments] at h
    split at h
    · exact ih h
    · split at h
      · rcases hrec : analyseSegments path rest with e2 | out <;> rw [hrec] at h
        · cases h; exact ih hrec
        · cases h
      · rcases hcap : paramCapture seg with - | name <;> rw [hcap] at h
        · cases h; rfl
        · rcases hrec : analyseSegments path rest with e2 | out <;> rw [hrec] at h
          · cases h; exact ih hrec
          · cases h

theorem analyse_error (p : Str) (e : Error) (h : RoutePath.analyse p = .error e) :
    e = .MalformedPath p := by
  rw [RoutePath.analyse] at h
  split at h
  · cases h; rfl
  · rcases hrec : analyseSegments p ((rustSplit (fun c => c = 47) p).drop 1) with e2 | segs <;>
      rw [hrec] at h
    · cases h; exact analyseSegments_error p _ _ hrec
    · cases h

theorem filterMap_parseSeg_none {seg : Str} (rest : List Str) (h : parseSeg seg = none) :
    (seg :: rest).filterMap parseSeg = rest.filterMap parseSeg := by
  rw [List.filterMap_cons, h]

theorem filterMap_parseSeg_some {seg : Str} {ps : PathSegment} (rest : List Str)
    (h : parseSeg seg = some ps) :
    (seg :: rest).filterMap parseSeg = ps :: rest.filterMap parseSeg := by
  rw [List.filterMap_cons, h]

theorem analyseSegments_ok_iff (path : Str) (segs : List Str) (out : List PathSegment) :
    analyseSegments path segs = .ok out ↔
      ((∀ s ∈ segs, s ≠ [] → validSeg s = true) ∧ out = segs.filterMap parseSeg) := by
  induction segs generalizing out with
  | nil =>
    constructor
    · intro h
      cases h
      exact ⟨fun s hs => absurd hs (List.not_mem_nil s), rfl⟩
    · rintro ⟨-, h2⟩
      exact congrArg Except.ok h2.symm
  | cons seg rest ih =>
    by_cases hemp : seg.isEmpty = true
    · have hps : parseSeg seg = none := by rw [parseSeg, if_pos hemp]
      have hsegnil : seg = [] := List.isEmpty_iff.mp hemp
      rw [analyseSegments, if_pos hemp, ih, filterMap_parseSeg_none rest hps]
      constructor
      · rintro ⟨h1, h2⟩
        refine ⟨fun s hs hne => ?_, h2⟩
        rcases List.mem_cons.mp hs with rfl | hs
        · exact absurd hsegnil hne
        · exact h1 s hs hne
      · rintro ⟨h1, h2⟩
        exact ⟨fun s hs hne => h1 s (List.mem_cons_of_mem _ hs) hne, h2⟩
    · rw [analyseSegments, if_neg hemp]
      by_cases hlit : literalMatch seg = true
      · have hps : parseSeg seg = some (.literal seg) := by
          rw [parseSeg, if_neg hemp, if_pos hlit]
        rw [if_pos hlit, filterMap_parseSeg_some rest hps]
        constructor
        · intro h
          rcases hrec : analyseSegments path rest with e2 | out2 <;> rw [hrec] at h
          · cases h
          · cases h
            obtain ⟨h1, h2⟩ := (ih out2).mp hrec
            refine ⟨fun s hs hne => ?_, by rw [h2]⟩
            rcases List.mem_cons.mp hs with rfl | hs
            · simp [validSeg, hlit]
            · exact h1 s hs hne
        · rintro ⟨h1, h2⟩
          have hrec : analyseSegments path rest = .ok (rest.filterMap parseSeg) :=
            (ih _).mpr ⟨fun s hs hne => h1 s (List.mem_cons_of_mem _ hs) hne, rfl⟩
          rw [hrec, h2]
      · rw [if_neg hlit]
        rcases hcap : paramCapture seg with - | name
        · have hlit2 : literalMatch seg = false := by
            revert hlit; cases literalMatch seg <;> simp
          have hvs : validSeg seg = false := by
            simp [validSeg, hcap, hlit2]
          constructor
          · intro h; cases h
          · rintro ⟨h1, h2⟩
            have h3 := h1 seg (List.mem_cons_self _ _)
              (by intro hn; rw [hn] at hemp; simp at hemp)
            rw [hvs] at h3
            cases h3
        · have hps : parseSeg seg = some (.parameter name) := by
            rw [parseSeg, if_neg hemp, if_neg hlit, hcap]; rfl
          rw [filterMap_parseSeg_some rest hps]
          constructor
          · intro h
            rcases hrec : analyseSegments path rest with e2 | out2 <;> rw [hrec] at h
            · cases h
            · cases h
              obtain ⟨h1, h2⟩ := (ih out2).mp hrec
              refine ⟨fun s hs hne => ?_, by rw [h2]⟩
              rcases List.mem_cons.mp hs with rfl | hs
              · simp [validSeg, hcap]
              · exact h1 s hs hne
          · rintro ⟨h1, h2⟩
            have hrec : analyseSegments path rest = .ok (rest.filterMap parseSeg) :=
              (ih _).mpr ⟨fun s hs hne => h1 s (List.mem_cons_of_mem _ hs) hne, rfl⟩
            rw [hrec, h2]

theorem analyse_ok_iff (p : Str) (rp : RoutePath) :
    RoutePath.analyse p = .ok rp ↔
      (p.head? = some 47 ∧
       (∀ s ∈ (rustSplit (fun c => c = 47) p).drop 1, s ≠ [] → validSeg s = true) ∧
       rp = ⟨((rustSplit (fun c => c = 47) p).drop 1).filterMap parseSeg⟩) := by
  rw [RoutePath.analyse]
  by_cases hhead : p.head? = some 47
  · have hpne : ¬(p.isEmpty = true) := by
      cases p with
      | nil => cases hhead
      | cons a t => simp
    rw [if_neg (by simp [hpne, hhead])]
    rcases hrec : analyseSegments p ((rustSplit (fun c => c = 47) p).drop 1) with e2 | out
    · constructor
      · intro h; cases h
      · rintro ⟨-, h1, -⟩
        have h3 := (analyseSegments_ok_iff p _ _).mpr ⟨h1, rfl⟩
        rw [hrec] at h3
        cases h3
    · obtain ⟨h1, h2⟩ := (analyseSegments_ok_iff p _ out).mp hrec
      constructor
      · intro h
        cases h
        exact ⟨hhead, h1, by rw [h2]⟩
      · rintro ⟨-, -, rfl⟩
        rw [h2]
  · rw [if_pos (by simp [hhead])]
    constructor
    · intro h; cases h
    · rintro ⟨h, -, -⟩
      exact absurd h hhead

theorem eq_dropLast_concat_of_getLast? (l : Str) (b : Nat) (h : l.getLast? = some b) :
    l = l.dropLast ++ [b] := by
  have hne : l ≠ [] := by intro hl; subst hl; cases h
  rw [List.getLast?_eq_getLast l hne] at h
  cases h
  exact (List.dropLast_append_getLast hne).symm

theorem paramCapture_eq_some_iff (s name : Str) :
    paramCapture s = some name ↔
      (name ≠ [] ∧ (∀ c ∈ name, isAlphaC c = true) ∧ s = 123 :: (name ++ [125])) := by
  constructor
  · intro h
    simp only [paramCapture] at h
    by_cases hcond : s.head? = some 123 ∧ s.getLast? = some 125
    · rw [if_pos hcond] at h
      obtain ⟨hh, hl⟩ := hcond
      by_cases hmid : (!(s.tail.dropLast).isEmpty && (s.tail.dropLast).all isAlphaC) = true
      · rw [if_pos hmid] at h
        cases h
        simp only [Bool.and_eq_true, Bool.not_eq_eq_eq_not, Bool.not_true] at hmid
        refine ⟨List.isEmpty_eq_false.mp hmid.1, fun c hc => List.all_eq_true.mp hmid.2 c hc, ?_⟩
        rcases s with - | ⟨a, rest⟩
        · cases hh
        · have ha : a = 123 := by simpa using hh
          subst ha
          have hrne : rest ≠ [] := by
            intro hr
            subst hr
            simp at hl
          have hrl : rest.getLast? = some 125 := by
            rcases rest with - | ⟨b, rest2⟩
            · exact absurd rfl hrne
            · rwa [List.getLast?_cons_cons] at hl
          have hre := eq_dropLast_concat_of_getLast? rest 125 hrl
          simp only [List.tail_cons]
          exact congrArg (fun l => 123 :: l) hre
      · rw [if_neg hmid] at h
        cases h
    · rw [if_neg hcond] at h
      cases h
  · rintro ⟨hne, hal, rfl⟩
    have hcons : (123 : Nat) :: (name ++ [125]) = (123 :: name) ++ [125] := by simp
    simp only [paramCapture]
    rw [if_pos ⟨rfl, by rw [hcons, List.getLast?_concat]⟩]
    simp only [List.tail_cons, List.dropLast_concat]
    rw [if_pos]
    simp only [Bool.and_eq_true, Bool.not_eq_eq_eq_not, Bool.not_true]
    exact ⟨List.isEmpty_eq_false.mpr hne, List.all_eq_true.mpr hal⟩

theorem specSegOk_iff_validSeg (s : Str) : SpecSegOk s ↔ validSeg s = true := by
  rw [SpecSegOk, validSeg]
  constructor
  · rintro (⟨hne, hal⟩ | ⟨name, hne, hal, rfl⟩)
    · rw [Bool.or_eq_true]
      exact Or.inl (by simp [literalMatch, List.isEmpty_eq_false.mpr hne, List.all_eq_true.mpr hal])
    · rw [Bool.or_eq_true]
      refine Or.inr ?_
      rw [(paramCapture_eq_some_iff _ name).mpr ⟨hne, hal, rfl⟩]
      rfl
  · intro h
    rw [Bool.or_eq_true] at h
    rcases h with h | h
    · simp only [literalMatch, Bool.and_eq_true, Bool.not_eq_eq_eq_not, Bool.not_true,
        List.all_eq_true] at h
      exact Or.inl ⟨List.isEmpty_eq_false.mp h.1, h.2⟩
    · rcases hcap : paramCapture s with - | name
      · rw [hcap] at h; cases h
      · obtain ⟨h1, h2, h3⟩ := (paramCapture_eq_some_iff s name).mp hcap
        exact Or.inr ⟨name, h1, h2, h3⟩

theorem rustSplit_head_slash (t : Str) :
    rustSplit (fun c => c = 47) (47 :: t) = [] :: rustSplit (fun c => c = 47) t := by
  rw [rustSplit, if_pos (by simp)]

/-- Claim C5: path analysis accepts exactly the strings that start with `/`
and whose non-empty `/`-delimited segments are each either a pure-alphabetic
literal or a single braced alphabetic parameter; the spec's concrete
accept/reject examples behave as stated (with the trailing empty segment of
`/a/b/c/` ignored, and rejections carrying `MalformedPath`). -/
theorem analyse_path_characterization :
    (∀ p : Str, (∃ rp, RoutePath.analyse p = .ok rp) ↔ SpecAcceptsPath p) ∧
    RoutePath.analyse (chars "/pets") = .ok ⟨[.literal (chars "pets")]⟩ ∧
    RoutePath.analyse (chars "/pets/\x7bpetId\x7d") =
      .ok ⟨[.literal (chars "pets"), .parameter (chars "petId")]⟩ ∧
    RoutePath.analyse (chars "/\x7ba\x7d/\x7bb\x7d/a/b") =
      .ok ⟨[.parameter (chars "a"), .parameter (chars "b"),
            .literal (chars "a"), .literal (chars "b")]⟩ ∧
    RoutePath.analyse (chars "/a/b/c/") =
      .ok ⟨[.literal (chars "a"), .literal (chars "b"), .literal (chars "c")]⟩ ∧
    RoutePath.analyse (chars "") = .error (.MalformedPath (chars "")) ∧
    RoutePath.analyse (chars "a/b") = .error (.MalformedPath (chars "a/b")) ∧
    RoutePath.analyse (chars "/a\x7b") = .error (.MalformedPath (chars "/a\x7b")) ∧
    RoutePath.analyse (chars "/a\x7b\x7d") = .error (.MalformedPath (chars "/a\x7b\x7d")) ∧
    RoutePath.analyse (chars "/\x7b\x7da") = .error (.MalformedPath (chars "/\x7b\x7da")) ∧
    RoutePath.analyse (chars "/\x7ba\x7da") = .error (.MalformedPath (chars "/\x7ba\x7da")) ∧
    RoutePath.analyse (chars "/ a") = .error (.MalformedPath (chars "/ a")) ∧
    RoutePath.analyse (chars "/a1") = .error (.MalformedPath (chars "/a1")) ∧
    RoutePath.analyse (chars "/\x7ba1\x7d") = .error (.MalformedPath (chars "/\x7ba1\x7d")) := by
  refine ⟨?_, rfl, rfl, rfl, rfl, rfl, rfl, rfl, rfl, rfl, rfl, rfl, rfl, rfl⟩
  intro p
  constructor
  · rintro ⟨rp, h⟩
    obtain ⟨hh, h1, -⟩ := (analyse_ok_iff p rp).mp h
    refine ⟨hh, ?_⟩
    rcases p with - | ⟨a, t⟩
    · cases hh
    · have ha : a = 47 := by simpa using hh
      subst ha
      rw [rustSplit_head_slash] at h1 ⊢
      rw [List.drop_one, List.tail_cons] at h1
      intro s hs hne
      rcases List.mem_cons.mp hs with rfl | hs
      · exact absurd rfl hne
      · exact (specSegOk_iff_validSeg s).mpr (h1 s hs hne)
  · rintro ⟨hh, hall⟩
    refine ⟨⟨((rustSplit (fun c => c = 47) p).drop 1).filterMap parseSeg⟩, ?_⟩
    refine (analyse_ok_iff p _).mpr ⟨hh, fun s hs hne => ?_, rfl⟩
    refine (specSegOk_iff_validSeg s).mp (hall s ?_ hne)
    exact List.mem_of_mem_drop hs

/-- Witness for C5: the membership direction instantiated at `/pets`. -/
theorem analyse_path_characterization_witness : SpecAcceptsPath (chars "/pets") :=
  (analyse_path_characterization.1 (chars "/pets")).mp ⟨⟨[.literal (chars "pets")]⟩, rfl⟩

/-! ### Round-tripping route paths (claim C3) -/

theorem alpha_ne_47 (c : Nat) (h : isAlphaC c = true) : decide (c = 47) = false := by
  have h' : (97 ≤ c ∧ c ≤ 122) ∨ (65 ≤ c ∧ c ≤ 90) := by
    simpa [isAlphaC, isLowerC, isUpperC] using h
  simp only [decide_eq_false_iff_not]
  rcases h' with h3 | h3 <;> omega

theorem analyse_literal_wf (p : Str) (rp : RoutePath) (h : RoutePath.analyse p = .ok rp) :
    ∀ l, PathSegment.literal l ∈ rp.segments → literalMatch l = true := by
  obtain ⟨-, -, rfl⟩ := (analyse_ok_iff p rp).mp h
  intro l hl
  simp only [List.mem_filterMap] at hl
  obtain ⟨s, hs, hps⟩ := hl
  rw [parseSeg] at hps
  split at hps
  · cases hps
  · split at hps
    · rename_i hlit
      cases hps
      exact hlit
    · rcases hcap : paramCapture s with - | nm <;> rw [hcap] at hps
      · cases hps
      · simp at hps

theorem literalMatch_elim (l : Str) (h : literalMatch l = true) :
    l ≠ [] ∧ ∀ c ∈ l, isAlphaC c = true := by
  simp only [literalMatch, Bool.and_eq_true, Bool.not_eq_eq_eq_not, Bool.not_true,
    List.all_eq_true] at h
  exact ⟨List.isEmpty_eq_false.mp h.1, h.2⟩

theorem build_template_eq (segs : List PathSegment) :
    RoutePath.build_template ⟨segs⟩ = segs.flatMap (fun s => 47 :: segPiece s) := by
  induction segs with
  | nil => rfl
  | cons s rest ih =>
    have hstep : RoutePath.build_template ⟨s :: rest⟩ =
        (match s with
         | .literal p => 47 :: p
         | .parameter _ => [47, 123, 125]) ++ RoutePath.build_template ⟨rest⟩ := by
      rw [RoutePath.build_template, RoutePath.build_template, List.flatMap_cons]
    rw [hstep, ih, List.flatMap_cons]
    cases s <;> rfl

theorem rustSplit_slash_flatMap (pieces : List Str) (w : Str)
    (h : ∀ s ∈ pieces, ∀ c ∈ s, decide (c = 47) = false)
    (hw : ∀ c ∈ w, decide (c = 47) = false) :
    rustSplit (fun c => c = 47) (w ++ pieces.flatMap (fun s => 47 :: s)) = w :: pieces := by
  induction pieces generalizing w with
  | nil => simpa using rustSplit_all_keep _ w hw
  | cons s rest ih =>
    have hassoc : w ++ (s :: rest).flatMap (fun s => 47 :: s) =
        w ++ 47 :: (s ++ rest.flatMap (fun s => 47 :: s)) := by
      rw [List.flatMap_cons]
      simp
    rw [hassoc, rustSplit_append_sep _ w _ 47 hw (by simp),
      ih s (fun u hu => h u (List.mem_cons_of_mem _ hu))
        (fun c hc => h s (List.mem_cons_self _ _) c hc)]

theorem segPiece_no_slash (p : Str) (rp : RoutePath) (h : RoutePath.analyse p = .ok rp) :
    ∀ s ∈ rp.segments, ∀ c ∈ segPiece s, decide (c = 47) = false := by
  intro s hs c hc
  cases s with
  | literal l =>
    have hlit := analyse_literal_wf p rp h l hs
    exact alpha_ne_47 c ((literalMatch_elim l hlit).2 c hc)
  | parameter n =>
    rw [segPiece] at hc
    rcases List.mem_cons.mp hc with rfl | hc
    · rfl
    · simp at hc
      subst hc
      rfl

theorem map_literal_segPiece (segs : List PathSegment)
    (hparam : RoutePath.hasParam ⟨segs⟩ = false)
    (hwf : ∀ l, PathSegment.literal l ∈ segs → literalMatch l = true) :
    (segs.map segPiece).filterMap parseSeg = segs := by
  induction segs with
  | nil => rfl
  | cons s rest ih =>
    have hprest : RoutePath.hasParam ⟨rest⟩ = false := by
      simp only [RoutePath.hasParam, List.any_cons, Bool.or_eq_false_iff] at hparam
      exact hparam.2
    cases s with
    | literal l =>
      have hlit := hwf l (List.mem_cons_self _ _)
      have hlne : l.isEmpty = false := List.isEmpty_eq_false.mpr (literalMatch_elim l hlit).1
      have hps : parseSeg l = some (.literal l) := by
        rw [parseSeg, if_neg (by simp [hlne]), if_pos hlit]
      rw [List.map_cons]
      have hsp : segPiece (.literal l) = l := rfl
      rw [hsp, filterMap_parseSeg_some _ hps,
        ih hprest (fun l2 hl2 => hwf l2 (List.mem_cons_of_mem _ hl2))]
    | parameter n =>
      exfalso
      simp [RoutePath.hasParam] at hparam

/-- Claim C3 (amended): for a `RoutePath` produced by successful path
analysis, rendering and re-parsing round-trips exactly when the path has at
least one segment and no parameter segments.  A parameter renders as the
positional placeholder `/\x7b\x7d` — its name is dropped — and the empty
segment list renders as the empty string; re-parsing rejects both with
`MalformedPath`. -/
theorem routepath_roundtrip :
    ∀ p rp, RoutePath.analyse p = .ok rp →
      ((rp.segments ≠ [] ∧ rp.hasParam = false →
         RoutePath.analyse (RoutePath.build_template rp) = .ok rp) ∧
       (rp.segments = [] ∨ rp.hasParam = true →
         RoutePath.analyse (RoutePath.build_template rp) =
           .error (.MalformedPath (RoutePath.build_template rp)))) := by
  intro p rp h
  obtain ⟨segs⟩ := rp
  have hsplit : rustSplit (fun c => c = 47) (RoutePath.build_template ⟨segs⟩) =
      [] :: segs.map segPiece := by
    rw [build_template_eq]
    have hmm : segs.flatMap (fun s => 47 :: segPiece s) =
        [] ++ (segs.map segPiece).flatMap (fun s => 47 :: s) := by
      rw [List.nil_append, List.flatMap_map]
    rw [hmm, rustSplit_slash_flatMap (segs.map segPiece) [] ?hp ?hw]
    case hp =>
      intro s hs c hc
      obtain ⟨t, ht, rfl⟩ := List.mem_map.mp hs
      exact segPiece_no_slash p ⟨segs⟩ h t ht c hc
    case hw =>
      intro c hc
      simp at hc
  constructor
  · rintro ⟨hne, hparam⟩
    have hhead : (RoutePath.build_template ⟨segs⟩).head? = some 47 := by
      rcases segs with - | ⟨s0, rest⟩
      · exact absurd rfl hne
      · rw [build_template_eq, List.flatMap_cons]
        rfl
    refine (analyse_ok_iff _ _).mpr ⟨hhead, ?_, ?_⟩
    · rw [hsplit, List.drop_one, List.tail_cons]
      intro s hs hne2
      obtain ⟨t, ht, rfl⟩ := List.mem_map.mp hs
      cases t with
      | literal l =>
        have hlit := analyse_literal_wf p ⟨segs⟩ h l ht
        rw [show segPiece (.literal l) = l from rfl]
        simp [validSeg, hlit]
      | parameter n =>
        exfalso
        have hf := List.any_eq_false.mp hparam _ ht
        simp at hf
    · rw [hsplit, List.drop_one, List.tail_cons,
        map_literal_segPiece segs hparam (analyse_literal_wf p ⟨segs⟩ h)]
  · intro hcase
    rcases hcase with hnil | hparam
    · have hnil2 : segs = [] := hnil
      subst hnil2
      rfl
    · rcases hres : RoutePath.analyse (RoutePath.build_template ⟨segs⟩) with e | rp2
      · have he := analyse_error _ _ hres
        rw [he]
      · exfalso
        obtain ⟨-, hval, -⟩ := (analyse_ok_iff _ _).mp hres
        obtain ⟨n, hn⟩ : ∃ n, PathSegment.parameter n ∈ segs := by
          obtain ⟨t, ht, hf⟩ := List.any_eq_true.mp hparam
          cases t with
          | literal l => simp at hf
          | parameter n => exact ⟨n, ht⟩
        have hmem : ([123, 125] : Str) ∈
            (rustSplit (fun c => c = 47) (RoutePath.build_template ⟨segs⟩)).drop 1 := by
          rw [hsplit, List.drop_one, List.tail_cons]
          exact List.mem_map.mpr ⟨.parameter n, hn, rfl⟩
        have hv := hval _ hmem (by simp)
        rw [show validSeg [123, 125] = false from rfl] at hv
        cases hv

/-- Counterexample to claim C3 as stated: parsing `/\x7ba\x7d` succeeds with
one parameter segment, but rendering drops the parameter name, producing
`/\x7b\x7d`, which re-parsing rejects — so render-then-reparse does not
round-trip. -/
theorem routepath_roundtrip_counterexample :
    RoutePath.analyse (chars "/\x7ba\x7d") = .ok ⟨[.parameter (chars "a")]⟩ ∧
    RoutePath.build_template ⟨[.parameter (chars "a")]⟩ = chars "/\x7b\x7d" ∧
    RoutePath.analyse (chars "/\x7b\x7d") = .error (.MalformedPath (chars "/\x7b\x7d")) :=
  ⟨rfl, rfl, rfl⟩

/-- Witness for C3 (amended) at the all-literal path `/a/b`. -/
theorem routepath_roundtrip_witness :
    RoutePath.analyse (RoutePath.build_template ⟨[.literal (chars "a"), .literal (chars "b")]⟩) =
      .ok ⟨[.literal (chars "a"), .literal (chars "b")]⟩ :=
  (routepath_roundtrip (chars "/a/b") ⟨[.literal (chars "a"), .literal (chars "b")]⟩ rfl).1
    ⟨by simp, rfl⟩

/-! ### Schema reference validation (claim C1) -/

theorem alnum_ne_47 (c : Nat) (h : isAlphanumericC c = true) : decide (c = 47) = false := by
  have h' : (97 ≤ c ∧ c ≤ 122) ∨ (65 ≤ c ∧ c ≤ 90) ∨ (48 ≤ c ∧ c ≤ 57) := by
    simpa [isAlphanumericC, isLowerC, isUpperC, isDigitC, or_assoc] using h
  simp only [decide_eq_false_iff_not]
  rcases h' with h3 | h3 | h3 <;> omega

theorem extract_ref_name_mkRef (n : Str) (hc : to_camel_case n = n) :
    extract_ref_name (mkSchemaRef n) = .ok ⟨n⟩ := by
  have halnum := camel_fixed_alnum n hc
  have hsplit : rustSplit (fun c => c = 47) (mkSchemaRef n) =
      [[35], chars "components", chars "schemas", n] := by
    have hshape : mkSchemaRef n =
        [35] ++ 47 :: (chars "components" ++ 47 :: (chars "schemas" ++ 47 :: n)) := rfl
    rw [hshape, rustSplit_append_sep _ _ _ _ (by decide) (by decide),
      rustSplit_append_sep _ _ _ _ (by decide) (by decide),
      rustSplit_append_sep _ _ _ _ (by decide) (by decide),
      rustSplit_all_keep _ n (fun c hcm => alnum_ne_47 c (halnum c hcm))]
  have hhead : (mkSchemaRef n).head? = some 35 := rfl
  rw [extract_ref_name, if_neg (by simp [hhead]), hsplit]
  show (if chars "components" = chars "components" ∧ chars "schemas" = chars "schemas"
        then TypeName.new n else Except.error (Error.BadReference (mkSchemaRef n))) =
      Except.ok ⟨n⟩
  rw [if_pos ⟨rfl, rfl⟩, TypeName.new, if_pos hc.symm]

theorem validate_step (lookup : SchemaLookup) (f depth : Nat) (n : Str)
    (hd : ¬depth > 20) (hc : to_camel_case n = n) :
    validate_schema_ref_depth lookup (f + 1) (mkSchemaRef n) depth =
      (match lookupGet lookup n with
       | none => .error (.BadReference (mkSchemaRef n))
       | some (.Reference reference) =>
         (match validate_schema_ref_depth lookup f reference (depth + 1) with
          | .ok (_, meta) => .ok (⟨n⟩, meta)
          | .error e => .error e)
       | some (.Item schema) => .ok (⟨n⟩, schema.schema_data)) := by
  rw [validate_schema_ref_depth, if_neg hd, extract_ref_name_mkRef n hc]

theorem validate_chain_succeeds (lookup : SchemaLookup) :
    ∀ (ns : List Str) (n : Str) (fuel depth : Nat) (d : SchemaData),
      chainOk lookup (n :: ns) = true →
      camelAll (n :: ns) = true →
      fuel + depth = 22 →
      depth + (n :: ns).length ≤ 21 →
      chainData lookup (n :: ns) = some d →
      validate_schema_ref_depth lookup fuel (mkSchemaRef n) depth = .ok (⟨n⟩, d) := by
  intro ns
  induction ns with
  | nil =>
    intro n fuel depth d hchain hcamel hfuel hlen hdata
    have hc : to_camel_case n = n := by
      simp [camelAll] at hcamel
      exact hcamel
    obtain ⟨f, rfl⟩ : ∃ f, fuel = f + 1 := ⟨fuel - 1, by simp at hlen; omega⟩
    rw [validate_step lookup f depth n (by simp at hlen; omega) hc]
    rw [chainOk] at hchain
    rw [chainData] at hdata
    rcases hlk : lookupGet lookup n with - | v <;> rw [hlk] at hchain hdata
    · cases hchain
    · rcases v with r | item
      · cases hchain
      · cases hdata
        rfl
  | cons m rest ih =>
    intro n fuel depth d hchain hcamel hfuel hlen hdata
    rw [chainOk, Bool.and_eq_true] at hchain
    obtain ⟨hlink, hchain2⟩ := hchain
    rw [camelAll, List.all_cons, Bool.and_eq_true] at hcamel
    have hc : to_camel_case n = n := of_decide_eq_true hcamel.1
    have hcrest : camelAll (m :: rest) = true := hcamel.2
    have hlk : lookupGet lookup n = some (.Reference (mkSchemaRef m)) := by
      revert hlink
      rcases h2 : lookupGet lookup n with - | (r | item)
      · intro hlink; cases hlink
      · intro hlink; rw [of_decide_eq_true hlink]
      · intro hlink; cases hlink
    obtain ⟨f, rfl⟩ : ∃ f, fuel = f + 1 := ⟨fuel - 1, by omega⟩
    rw [validate_step lookup f depth n (by simp at hlen; omega) hc]
    simp only [hlk]
    have hdata2 : chainData lookup (m :: rest) = some d := hdata
    rw [ih m f (depth + 1) d hchain2 hcrest (by omega) (by simp at hlen ⊢; omega) hdata2]

theorem validate_chain_too_long (lookup : SchemaLookup) :
    ∀ (ns : List Str) (n : Str) (fuel depth : Nat),
      chainOk lookup (n :: ns) = true →
      camelAll (n :: ns) = true →
      fuel + depth = 22 →
      depth + (n :: ns).length ≥ 22 →
      ∃ r, validate_schema_ref_depth lookup fuel (mkSchemaRef n) depth =
        .error (.BadReference r) := by
  intro ns
  induction ns with
  | nil =>
    intro n fuel depth _ _ hfuel hlen
    rcases fuel with - | f
    · exact ⟨mkSchemaRef n, by rw [validate_schema_ref_depth]⟩
    · have hd : depth > 20 := by simp at hlen; omega
      exact ⟨mkSchemaRef n, by rw [validate_schema_ref_depth, if_pos hd]⟩
  | cons m rest ih =>
    intro n fuel depth hchain hcamel hfuel hlen
    by_cases hd : depth > 20
    · rcases fuel with - | f
      · exact ⟨mkSchemaRef n, by rw [validate_schema_ref_depth]⟩
      · exact ⟨mkSchemaRef n, by rw [validate_schema_ref_depth, if_pos hd]⟩
    · rw [chainOk, Bool.and_eq_true] at hchain
      obtain ⟨hlink, hchain2⟩ := hchain
      rw [camelAll, List.all_cons, Bool.and_eq_true] at hcamel
      have hc : to_camel_case n = n := of_decide_eq_true hcamel.1
      have hcrest : camelAll (m :: rest) = true := hcamel.2
      have hlk : lookupGet lookup n = some (.Reference (mkSchemaRef m)) := by
        revert hlink
        rcases h2 : lookupGet lookup n with - | (r2 | item)
        · intro hlink; cases hlink
        · intro hlink; rw [of_decide_eq_true hlink]
        · intro hlink; cases hlink
      obtain ⟨f, rfl⟩ : ∃ f, fuel = f + 1 := ⟨fuel - 1, by omega⟩
      obtain ⟨r, hr⟩ := ih m f (depth + 1) hchain2 hcrest (by omega) (by simp at hlen ⊢; omega)
      refine ⟨r, ?_⟩
      rw [validate_step lookup f depth n hd hc]
      simp only [hlk, hr]

theorem validate_all_references (lookup : SchemaLookup)
    (hall : ∀ k v, lookupGet lookup k = some v →
      ∃ m, v = .Reference (mkSchemaRef m) ∧ to_camel_case m = m ∧ (lookupGet lookup m).isSome) :
    ∀ (fuel depth : Nat) (n : Str), fuel + depth = 22 → to_camel_case n = n →
      (lookupGet lookup n).isSome = true →
      ∃ r, validate_schema_ref_depth lookup fuel (mkSchemaRef n) depth =
        .error (.BadReference r) := by
  intro fuel
  induction fuel with
  | zero =>
    intro depth n _ _ _
    exact ⟨mkSchemaRef n, by rw [validate_schema_ref_depth]⟩
  | succ f ih =>
    intro depth n hfd hc hsome
    by_cases hd : depth > 20
    · exact ⟨mkSchemaRef n, by rw [validate_schema_ref_depth, if_pos hd]⟩
    · rcases hlk : lookupGet lookup n with - | v
      · rw [hlk] at hsome
        cases hsome
      · obtain ⟨m, rfl, hcm, hsm⟩ := hall n v hlk
        obtain ⟨r, hr⟩ := ih (depth + 1) m (by omega) hcm hsm
        refine ⟨r, ?_⟩
        rw [validate_step lookup f depth n hd hc]
        simp only [hlk, hr]

/-- Claim C1 (amended): reference validation succeeds on a grammar-valid
chain of `k ≤ 21` pointers with existing targets, returning the first name
and the terminal schema's metadata; a chain of `k ≥ 22` pointers fails with
`BadReference` (the guard `depth > 20` admits depths 0..20, so 21 pointers —
one more than the claim's bound — still succeed); and a lookup table
consisting entirely of references (every chain cyclic or endless) always
fails with `BadReference`. -/
theorem validate_schema_ref_characterization :
    (∀ (lookup : SchemaLookup) (n : Str) (ns : List Str) (d : SchemaData),
      chainOk lookup (n :: ns) = true → camelAll (n :: ns) = true →
      (n :: ns).length ≤ 21 → chainData lookup (n :: ns) = some d →
      validate_schema_ref (mkSchemaRef n) lookup = .ok (⟨n⟩, d)) ∧
    (∀ (lookup : SchemaLookup) (n : Str) (ns : List Str),
      chainOk lookup (n :: ns) = true → camelAll (n :: ns) = true →
      (n :: ns).length ≥ 22 →
      ∃ r, validate_schema_ref (mkSchemaRef n) lookup = .error (.BadReference r)) ∧
    (∀ lookup : SchemaLookup,
      (∀ k v, lookupGet lookup k = some v →
        ∃ m, v = .Reference (mkSchemaRef m) ∧ to_camel_case m = m ∧
          (lookupGet lookup m).isSome) →
      ∀ n, to_camel_case n = n → (lookupGet lookup n).isSome = true →
      ∃ r, validate_schema_ref (mkSchemaRef n) lookup = .error (.BadReference r)) := by
  refine ⟨?_, ?_, ?_⟩
  · intro lookup n ns d hchain hcamel hlen hdata
    exact validate_chain_succeeds lookup ns n 22 0 d hchain hcamel rfl (by omega) hdata
  · intro lookup n ns hchain hcamel hlen
    exact validate_chain_too_long lookup ns n 22 0 hchain hcamel rfl (by omega)
  · intro lookup hall n hc hsome
    exact validate_all_references lookup hall 22 0 n rfl hc hsome

/-- Counterexample to claim C1 as stated: a chain of 21 pointers — more than
the claimed bound of 20 — still validates successfully. -/
theorem validate_schema_ref_chain21_counterexample :
    (letterNames 21).length = 21 ∧
    chainOk (chainLookup schX (letterNames 21)) (letterNames 21) = true ∧
    validate_schema_ref (mkSchemaRef (chars "A")) (chainLookup schX (letterNames 21)) =
      .ok (⟨chars "A"⟩, schX.schema_data) :=
  ⟨rfl, by decide, rfl⟩

/-- Witness for C1 (amended): a one-pointer chain succeeds; a 22-pointer
chain fails with `BadReference`; a self-referential (cyclic) table fails
with `BadReference`. -/
theorem validate_schema_ref_characterization_witness :
    validate_schema_ref (mkSchemaRef (chars "A")) [(chars "A", .Item schX)] =
      .ok (⟨chars "A"⟩, schX.schema_data) ∧
    (∃ r, validate_schema_ref (mkSchemaRef (chars "A")) (chainLookup schX (letterNames 22)) =
      .error (.BadReference r)) ∧
    (∃ r, validate_schema_ref (mkSchemaRef (chars "A"))
        [(chars "A", .Reference (mkSchemaRef (chars "A")))] =
      .error (.BadReference r)) := by
  refine ⟨?_, ?_, ?_⟩
  · exact validate_schema_ref_characterization.1 [(chars "A", .Item schX)] (chars "A") []
      schX.schema_data (by decide) (by decide) (by decide) rfl
  · exact validate_schema_ref_characterization.2.1 (chainLookup schX (letterNames 22))
      (chars "A") ((letterNames 22).drop 1) (by decide) (by decide) (by decide)
  · refine validate_schema_ref_characterization.2.2
      [(chars "A", .Reference (mkSchemaRef (chars "A")))] ?_ (chars "A") (by decide) (by decide)
    intro k v hkv
    rw [lookupGet] at hkv
    by_cases hk : chars "A" = k
    · rw [if_pos hk] at hkv
      cases hkv
      exact ⟨chars "A", rfl, by decide, by decide⟩
    · rw [if_neg hk, lookupGet] at hkv
      cases hkv

/-! ### Dereferencing (claim C4) -/

/-- Counterexample to claim C4 as stated: `dereference` is not single-hop.
With `a ↦ Reference b, b ↦ Item r` the lookup of `a` chases two hops and
yields `r` (not the stored reference); and with `a ↦ Reference b` alone, the
error names the second-hop key `b`, proving a second lookup was attempted. -/
theorem dereference_counterexample :
    dereference 10 (.Reference (chars "a"))
      [(chars "a", .Reference (chars "b")),
       (chars "b", .Item (⟨[], [], []⟩ : Response))] =
      .ok ⟨[], [], []⟩ ∧
    dereference 10 (.Reference (chars "a"))
      [(chars "a", (.Reference (chars "b") : ReferenceOr Response))] =
      .err (.BadReference (chars "b")) :=
  ⟨rfl, rfl⟩

/-- Claim C4 (amended): `dereference` resolves recursively, not in a single
hop.  An `Item` argument returns the item; a pointer whose key stores an
`Item` yields it in one hop; a pointer to a missing key fails with
`BadReference` naming that pointer; and a pointer whose key stores another
reference is followed recursively (the source has no depth guard — the
explicit fuel makes the recursion total here). -/
theorem dereference_characterization :
    ∀ {α : Type} (fuel : Nat) (lookup : List (Str × ReferenceOr α)) (k : Str),
      (∀ it, dereference (fuel + 1) (.Item it) lookup = .ok it) ∧
      (∀ it, lookupGet lookup k = some (.Item it) →
        dereference (fuel + 1) (.Reference k) lookup = .ok it) ∧
      (lookupGet lookup k = none →
        dereference (fuel + 1) (.Reference k) lookup = .err (.BadReference k)) ∧
      (∀ r, lookupGet lookup k = some (.Reference r) →
        dereference (fuel + 1) (.Reference k) lookup =
          dereference fuel (.Reference r) lookup) := by
  intro α fuel lookup k
  refine ⟨fun it => by rw [dereference], fun it h => ?_, fun h => ?_, fun r h => ?_⟩
  · rw [dereference]
    simp only [h]
    rw [dereference]
  · rw [dereference]
    simp only [h]
  · rw [dereference]
    simp only [h]

/-- Witness for C4 (amended) at concrete one-entry response tables. -/
theorem dereference_characterization_witness :
    dereference 5 (.Reference (chars "r"))
      [(chars "r", .Item (⟨[], [], []⟩ : Response))] = .ok ⟨[], [], []⟩ ∧
    dereference 5 (.Reference (chars "missing"))
      ([] : List (Str × ReferenceOr Response)) = .err (.BadReference (chars "missing")) := by
  constructor
  · exact (dereference_characterization 4 _ (chars "r")).2.1 _ rfl
  · exact (dereference_characterization 4 _ (chars "missing")).2.2.1 rfl

/-! ### Struct extraction (claim C6) -/

theorem Outcome.bind_eq_ok {α β : Type} (x : Outcome α) (f : α → Outcome β) (b : β)
    (h : Outcome.bind x f = .ok b) : ∃ a, x = .ok a ∧ f a = .ok b := by
  cases x with
  | ok a => exact ⟨a, rfl, h⟩
  | err e => cases h
  | panic m => cases h
  | diverge => cases h

theorem liftE_eq_ok {α : Type} (y : Except Error α) (b : α) (h : liftE y = .ok b) :
    y = .ok b := by
  cases y with
  | ok a => cases h; rfl
  | error e => cases h

theorem from_objlike_fields_ok (bt : ReferenceOr Schema → Outcome StructOrType)
    (required : List Str) :
    ∀ (props : List (Str × ReferenceOr Schema)) (fs : List Field),
      from_objlike_fields bt required props = .ok fs →
      List.Forall₂ (fieldSpec bt required) props fs := by
  intro props
  induction props with
  | nil =>
    intro fs h
    cases h
    exact List.Forall₂.nil
  | cons p rest ih =>
    intro fs h
    rw [from_objlike_fields] at h
    obtain ⟨st, hst, h⟩ := Outcome.bind_eq_ok _ _ _ h
    obtain ⟨ty0, hty0, h⟩ := Outcome.bind_eq_ok _ _ _ h
    obtain ⟨nm, hnm, h⟩ := Outcome.bind_eq_ok _ _ _ h
    obtain ⟨fs2, hfs2, h⟩ := Outcome.bind_eq_ok _ _ _ h
    cases h
    refine List.Forall₂.cons ⟨ty0, nm, ?_, liftE_eq_ok _ _ hnm, rfl⟩ (ih fs2 hfs2)
    rw [hst]
    exact hty0

theorem from_objlike_ok (bt : ReferenceOr Schema → Outcome StructOrType)
    (props : List (Str × ReferenceOr Schema)) (required : List Str) (s : Struct)
    (h : Struct.from_objlike bt props required = .ok s) :
    List.Forall₂ (fieldSpec bt required) props s.fields ∧ s.fields ≠ [] := by
  rw [Struct.from_objlike] at h
  obtain ⟨fs, hfs, h2⟩ := Outcome.bind_eq_ok _ _ _ h
  have h3 := liftE_eq_ok _ _ h2
  rw [Struct.new] at h3
  split at h3
  · cases h3
  · rename_i hne
    cases h3
    exact ⟨from_objlike_fields_ok bt required props fs hfs,
      fun hnil => hne (List.isEmpty_iff.mpr hnil)⟩

/-- Claim C6: struct extraction walks the declared properties in order, wraps
a field's type in `Optional` exactly when the property name is absent from
the `required` list, fails with `EmptyStruct` on an empty property list, and
on the spec's example (`id: integer` and `name: string` required,
`tag: string` optional) yields `id: I64, name: String, tag: Option String`
in declared order. -/
theorem from_objlike_characterization :
    (∀ (bt : ReferenceOr Schema → Outcome StructOrType) (required : List Str),
      Struct.from_objlike bt [] required = .err .EmptyStruct) ∧
    (∀ bt props required s, Struct.from_objlike bt props required = .ok s →
      List.Forall₂ (fieldSpec bt required) props s.fields ∧ s.fields ≠ []) ∧
    Struct.from_objlike (build_type 5 []) propsEx [chars "id", chars "name"] =
      .ok ⟨[⟨⟨chars "id"⟩, .mk mdef .i64⟩,
            ⟨⟨chars "name"⟩, .mk mdef .string⟩,
            ⟨⟨chars "tag"⟩, .mk mdef (.option (.mk mdef .string))⟩]⟩ :=
  ⟨fun _ _ => rfl, from_objlike_ok, rfl⟩

/-- Witness for C6: the success characterization applied to the spec's
example object. -/
theorem from_objlike_characterization_witness :
    List.Forall₂ (fieldSpec (build_type 5 []) [chars "id", chars "name"]) propsEx
      [⟨⟨chars "id"⟩, .mk mdef .i64⟩,
       ⟨⟨chars "name"⟩, .mk mdef .string⟩,
       ⟨⟨chars "tag"⟩, .mk mdef (.option (.mk mdef .string))⟩] :=
  (from_objlike_characterization.2.1 (build_type 5 []) propsEx [chars "id", chars "name"]
    ⟨[⟨⟨chars "id"⟩, .mk mdef .i64⟩,
      ⟨⟨chars "name"⟩, .mk mdef .string⟩,
      ⟨⟨chars "tag"⟩, .mk mdef (.option (.mk mdef .string))⟩]⟩ rfl).1

/-! ### Response body resolution (claim C7) -/

/-- Counterexample to claim C7 as stated: a response whose single content
entry is `text/plain` makes `get_type_of_response` panic (`todo!`) instead
of returning a typed error result. -/
theorem get_type_of_response_counterexample :
    get_type_of_response 10 (.Item respNonJson) [] [] =
      .panic (chars "not yet implemented: content type must be application/json") := rfl

/-- Claim C7 (amended): for a stored response with empty headers and links,
no content yields no body type (`ok none`) and a single `application/json`
media type carrying a schema yields the built, struct-discarded body type;
but any other content shape — and a JSON media type without a schema, or a
response with headers or links — panics via `todo!` rather than returning a
typed error result. -/
theorem get_type_of_response_characterization :
    ∀ (fuel : Nat) (resp : Response) (rl : ResponseLookup) (sl : SchemaLookup),
      (resp.headers ≠ [] →
        get_type_of_response (fuel + 1) (.Item resp) rl sl =
          .panic (chars "not yet implemented: response headers not supported")) ∧
      (resp.headers = [] → resp.links = [] → resp.content = [] →
        get_type_of_response (fuel + 1) (.Item resp) rl sl = .ok none) ∧
      (∀ ros, resp.headers = [] → resp.links = [] →
        resp.content = [(chars "application/json", ⟨some ros⟩)] →
        get_type_of_response (fuel + 1) (.Item resp) rl sl =
          Outcome.bind (build_type (fuel + 1) sl ros) (fun st =>
            Outcome.bind (liftE st.discard_struct) (fun t => .ok (some t)))) ∧
      (resp.headers = [] → resp.links = [] → resp.content ≠ [] →
        ¬(resp.content.length = 1 ∧
            (lookupGet resp.content (chars "application/json")).isSome = true) →
        get_type_of_response (fuel + 1) (.Item resp) rl sl =
          .panic (chars "not yet implemented: content type must be application/json")) ∧
      (resp.headers = [] → resp.links = [] →
        resp.content = [(chars "application/json", ⟨none⟩)] →
        get_type_of_response (fuel + 1) (.Item resp) rl sl =
          .panic (chars "not yet implemented: Media type does not contain schema")) := by
  intro fuel resp rl sl
  obtain ⟨hs, ls, ct⟩ := resp
  refine ⟨?_, ?_, ?_, ?_, ?_⟩
  · intro hhe
    rcases hs with - | ⟨u, hs2⟩
    · exact absurd rfl hhe
    · rfl
  · rintro rfl rfl rfl
    rfl
  · rintro ros rfl rfl rfl
    rfl
  · rintro rfl rfl hne hnot
    rw [get_type_of_response]
    have hd : dereference (fuel + 1) (.Item (⟨[], [], ct⟩ : Response)) rl = .ok ⟨[], [], ct⟩ := by
      rw [dereference]
    rw [hd]
    simp only [Outcome.bind]
    rw [if_neg (by simp), if_neg (by simp), if_neg (by simp [List.isEmpty_eq_false.mpr hne])]
    rw [if_pos]
    have hb : (decide (ct.length = 1) && (lookupGet ct (chars "application/json")).isSome) = false := by
      rcases Bool.eq_false_or_eq_true
          (decide (ct.length = 1) && (lookupGet ct (chars "application/json")).isSome) with hb | hb
      · rw [Bool.and_eq_true] at hb
        exact absurd ⟨of_decide_eq_true hb.1, hb.2⟩ hnot
      · exact hb
    simp [hb]
  · rintro rfl rfl rfl
    rfl

/-- Witness for C7 (amended) at concrete responses: a `204`-style response
with no content resolves to no body type, and a two-entry content map
panics. -/
theorem get_type_of_response_characterization_witness :
    get_type_of_response 10 (.Item (⟨[], [], []⟩ : Response)) [] [] = .ok none ∧
    get_type_of_response 10
      (.Item (⟨[], [], [(chars "application/json", ⟨none⟩), (chars "text/plain", ⟨none⟩)]⟩ :
        Response)) [] [] =
      .panic (chars "not yet implemented: content type must be application/json") := by
  constructor
  · exact (get_type_of_response_characterization 9 ⟨[], [], []⟩ [] []).2.1 rfl rfl rfl
  · exact (get_type_of_response_characterization 9
      ⟨[], [], [(chars "application/json", ⟨none⟩), (chars "text/plain", ⟨none⟩)]⟩ [] []).2.2.2.1
      rfl rfl (by simp) (by intro hcl; exact absurd hcl.1 (by decide))

/-! ### Composite (allOf) schemas (claim C2) -/

/-- Counterexample to claim C2 as stated: an `allOf` schema whose two object
constituents share the field `id` — the scenario the claim says yields a
typed `DuplicateName` error — actually panics via the source's bare
`todo!()`. -/
theorem build_type_allof_counterexample :
    build_type 10 [] (.Item allOfDupSchema) = .panic (chars "not yet implemented") := rfl

theorem insertFields_ok (fs : List Field) :
    ∀ (acc res : List (Ident × Field)), insertFields acc fs = .ok res →
      (acc.map Prod.fst).Nodup → (∀ p ∈ acc, p.2.name = p.1) →
      ((res.map Prod.fst).Nodup ∧ (∀ p ∈ res, p.2.name = p.1)) := by
  induction fs with
  | nil =>
    intro acc res h hnd hnm
    cases h
    exact ⟨hnd, hnm⟩
  | cons f fs ih =>
    intro acc res h hnd hnm
    rw [insertFields] at h
    split at h
    · cases h
    · rename_i hdup
      have hdup2 : acc.any (fun p => decide (p.1 = f.name)) = false := by
        revert hdup
        cases acc.any (fun p => decide (p.1 = f.name)) <;> simp
      have hnotmem : f.name ∉ acc.map Prod.fst := by
        intro hmem
        obtain ⟨p, hp, hpeq⟩ := List.mem_map.mp hmem
        have := List.any_eq_false.mp hdup2 p hp
        simp [hpeq] at this
      refine ih _ res h ?_ ?_
      · rw [List.map_append]
        simp only [List.map_cons, List.map_nil]
        rw [List.nodup_append]
        exact ⟨hnd, List.nodup_singleton _, by simpa using hnotmem⟩
      · intro p hp
        rcases List.mem_append.mp hp with h2 | h2
        · exact hnm p h2
        · simp at h2
          rw [h2]

theorem combine_go_ok (ts : List StructOrType) :
    ∀ (acc res : List (Ident × Field)), combine_go acc ts = .ok res →
      (acc.map Prod.fst).Nodup → (∀ p ∈ acc, p.2.name = p.1) →
      ((∀ t ∈ ts, ∃ st, t.typ = .Left st) ∧ (res.map Prod.fst).Nodup ∧
        (∀ p ∈ res, p.2.name = p.1)) := by
  induction ts with
  | nil =>
    intro acc res h hnd hnm
    cases h
    exact ⟨fun t ht => absurd ht (List.not_mem_nil t), hnd, hnm⟩
  | cons t ts ih =>
    intro acc res h hnd hnm
    obtain ⟨tm, tt⟩ := t
    rcases tt with st | other
    · simp only [combine_go] at h
      rcases hins : insertFields acc st.fields with e | acc2 <;> rw [hins] at h
      · cases h
      · obtain ⟨hnd2, hnm2⟩ := insertFields_ok st.fields acc acc2 hins hnd hnm
        obtain ⟨hl, hnd3, hnm3⟩ := ih acc2 res h hnd2 hnm2
        refine ⟨fun u hu => ?_, hnd3, hnm3⟩
        rcases List.mem_cons.mp hu with rfl | hu
        · exact ⟨st, rfl⟩
        · exact hl u hu
    · simp only [combine_go] at h
      cases h

theorem combine_types_ok (ts : List StructOrType)
    (lookup : List (Str × ReferenceOr StructOrType)) (s : Struct)
    (h : combine_types ts lookup = .ok s) :
    (∀ t ∈ ts, ∃ st, t.typ = .Left st) ∧ (s.fields.map (fun f => f.name)).Nodup := by
  rw [combine_types] at h
  rcases hgo : combine_go [] ts with e | m <;> rw [hgo] at h
  · cases h
  · obtain ⟨hl, hnd, hnm⟩ := combine_go_ok ts [] m hgo (by simp) (by simp)
    have h2 : Struct.new (m.map (fun p => p.2)) = .ok s := h
    rw [Struct.new] at h2
    split at h2
    · cases h2
    · cases h2
      refine ⟨hl, ?_⟩
      have hmm : (m.map (fun p => p.2)).map (fun f => f.name) = m.map Prod.fst := by
        rw [List.map_map]
        exact List.map_congr_left (fun p hp => hnm p hp)
      rw [hmm]
      exact hnd

/-- Claim C2 (amended): `build_type` on an `allOf` schema builds each
constituent — propagating their failures — and if all succeed, panics via
the source's bare `todo!()` instead of merging; the merge described by the
claim lives only in the dead-code helper `combine_types` (its call site is
commented out), which indeed fails with `DuplicateName` when two
constituents share a field identifier and with the typed error
`Todo("Only object-like types allowed in AllOf types")` when a constituent
is a non-struct, and succeeds only when every constituent is a struct and
all field names are distinct. -/
theorem build_type_allof_characterization :
    (∀ (fuel : Nat) (lookup : SchemaLookup) (meta : SchemaData)
        (schemas : List (ReferenceOr Schema)) (ts : List StructOrType),
      outcomeMapM (build_type fuel lookup) schemas = .ok ts →
      build_type (fuel + 1) lookup (.Item (.mk meta (.allOf schemas))) =
        .panic (chars "not yet implemented")) ∧
    (∀ ts lookup s, combine_types ts lookup = .ok s →
      (∀ t ∈ ts, ∃ st, t.typ = .Left st) ∧ (s.fields.map (fun f => f.name)).Nodup) ∧
    combine_types [structIdI64.with_meta_either mdef, structIdStr.with_meta_either mdef] [] =
      .error (.DuplicateName (chars "id")) ∧
    combine_types [TypeInner.i64.with_meta_either mdef] [] =
      .error (.Todo (chars "Only object-like types allowed in AllOf types")) := by
    refine ⟨?_, combine_types_ok, rfl, rfl⟩
    intro fuel lookup meta schemas ts h
    rw [build_type]
    show Outcome.bind (outcomeMapM (build_type fuel lookup) schemas) _ = _
    rw [h]
    rfl

/-- Witness for C2 (amended): the duplicate-field `allOf` schema panics
after its constituents build, and `combine_types` on two disjoint structs
succeeds with distinct field names. -/
theorem build_type_allof_characterization_witness :
    build_type 10 [] (.Item allOfDupSchema) = .panic (chars "not yet implemented") ∧
    ((∀ t ∈ [structIdI64.with_meta_either mdef], ∃ st, t.typ = .Left st) ∧
      ((structIdI64.fields.map (fun f => f.name)).Nodup)) := by
  constructor
  · exact build_type_allof_characterization.1 9 [] mdef _ _ rfl
  · exact build_type_allof_characterization.2.1 [structIdI64.with_meta_either mdef] []
      structIdI64 rfl

/-! ### IR invariants (claim C10) -/

theorem forall₂_mem_right {α β : Type} {R : α → β → Prop} :
    ∀ {l1 : List α} {l2 : List β}, List.Forall₂ R l1 l2 → ∀ b ∈ l2, ∃ a ∈ l1, R a b := by
  intro l1 l2 h
  induction h with
  | nil => intro b hb; exact absurd hb (List.not_mem_nil b)
  | cons hr ht ih =>
    intro b hb
    rcases List.mem_cons.mp hb with rfl | hb
    · exact ⟨_, List.mem_cons_self _ _, hr⟩
    · obtain ⟨a, ha, har⟩ := ih b hb
      exact ⟨a, List.mem_cons_of_mem _ ha, har⟩

/-- The well-formedness carried through the type-building induction: no
double-`Option` inside, and the node is not itself an `Option` at the top
(so that a later `to_option` wrap cannot create a double `Option`). -/
def sotInv (st : StructOrType) : Prop :=
  st.noOptOptE = true ∧ ∀ ti, st.typ = .Right ti → ti.isOption = false

theorem discard_struct_inv (st : StructOrType) (t : HType)
    (h : st.discard_struct = .ok t) (hP : sotInv st) :
    t.noOptOpt = true ∧ t.typ.isOption = false := by
  rw [StructOrType.discard_struct] at h
  rcases hty : st.typ with s | ti <;> rw [hty] at h
  · cases h
  · cases h
    constructor
    · have h1 := hP.1
      rw [StructOrType.noOptOptE, hty] at h1
      exact h1
    · exact hP.2 ti hty

theorem fieldSpec_noOptOpt_of (bt : ReferenceOr Schema → Outcome StructOrType)
    (hbt : ∀ ros st, bt ros = .ok st → sotInv st)
    (required : List Str) (p : Str × ReferenceOr Schema) (fd : Field)
    (hspec : fieldSpec bt required p fd) : fd.ty.noOptOpt = true := by
  obtain ⟨t, nm, hbind, hname, rfl⟩ := hspec
  obtain ⟨st0, hst0, hdisc⟩ := Outcome.bind_eq_ok _ _ _ hbind
  have hinv := discard_struct_inv st0 t (liftE_eq_ok _ _ hdisc) (hbt p.2 st0 hst0)
  obtain ⟨tm, tt⟩ := t
  have h1 : tt.isOption = false := hinv.2
  have h2 : tt.noOptOptI = true := hinv.1
  by_cases hreq : required.contains p.1 = true
  · show (if required.contains p.1 then _ else _ : HType).noOptOpt = true
    rw [hreq]
    exact h2
  · have hreq2 : required.contains p.1 = false := by
      revert hreq
      cases required.contains p.1 <;> simp
    show (if required.contains p.1 then _ else _ : HType).noOptOpt = true
    rw [hreq2]
    show (HType.to_option ⟨tm, tt⟩).noOptOpt = true
    show (!tt.isOption && tt.noOptOptI) = true
    rw [h1, h2]
    rfl

theorem build_type_inv :
    ∀ (fuel : Nat) (lookup : SchemaLookup) (ros : ReferenceOr Schema) (st : StructOrType),
      build_type fuel lookup ros = .ok st → sotInv st := by
  intro fuel
  induction fuel with
  | zero => intro lookup ros st h; cases h
  | succ f ihf =>
    intro lookup ros st h
    have hstruct : ∀ (props : List (Str × ReferenceOr Schema)) (required : List Str) (s0 : Struct),
        Struct.from_objlike (build_type f lookup) props required = .ok s0 →
        s0.fields.all (fun fd => fd.ty.noOptOpt) = true := by
      intro props required s0 hs0
      obtain ⟨hfa, -⟩ := from_objlike_ok _ _ _ _ hs0
      refine List.all_eq_true.mpr (fun fd hfd => ?_)
      obtain ⟨p, -, hspec⟩ := forall₂_mem_right hfa fd hfd
      exact fieldSpec_noOptOpt_of (build_type f lookup) (ihf lookup) required p fd hspec
    rcases ros with r | schema
    · rw [build_type] at h
      rcases hv : validate_schema_ref r lookup with e | nm_meta <;> rw [hv] at h
      · cases h
      · obtain ⟨nm, meta⟩ := nm_meta
        cases h
        exact ⟨rfl, fun ti hti => by cases hti; rfl⟩
    · obtain ⟨meta0, kind⟩ := schema
      rcases kind with t | ones | alls | anyo
      · rcases t with - | - | - | - | items | obj
        · simp only [build_type, Schema.schema_data, Schema.schema_kind] at h
          cases h
          exact ⟨rfl, fun ti hti => by cases hti; rfl⟩
        · simp only [build_type, Schema.schema_data, Schema.schema_kind] at h
          cases h
          exact ⟨rfl, fun ti hti => by cases hti; rfl⟩
        · simp only [build_type, Schema.schema_data, Schema.schema_kind] at h
          cases h
          exact ⟨rfl, fun ti hti => by cases hti; rfl⟩
        · simp only [build_type, Schema.schema_data, Schema.schema_kind] at h
          cases h
          exact ⟨rfl, fun ti hti => by cases hti; rfl⟩
        · simp only [build_type, Schema.schema_data, Schema.schema_kind] at h
          obtain ⟨st0, hst0, h⟩ := Outcome.bind_eq_ok _ _ _ h
          obtain ⟨t, ht, h⟩ := Outcome.bind_eq_ok _ _ _ h
          cases h
          have hinv := discard_struct_inv st0 t (liftE_eq_ok _ _ ht) (ihf lookup items st0 hst0)
          obtain ⟨tm, tt⟩ := t
          refine ⟨?_, fun ti hti => by cases hti; rfl⟩
          show tt.noOptOptI = true
          exact hinv.1
        · simp only [build_type, Schema.schema_data, Schema.schema_kind] at h
          obtain ⟨s0, hs0, h⟩ := Outcome.bind_eq_ok _ _ _ h
          cases h
          refine ⟨hstruct _ _ s0 hs0, fun ti hti => by cases hti⟩
      · simp only [build_type, Schema.schema_data, Schema.schema_kind] at h
        cases h
      · simp only [build_type, Schema.schema_data, Schema.schema_kind] at h
        obtain ⟨ts, -, h⟩ := Outcome.bind_eq_ok _ _ _ h
        cases h
      · obtain ⟨props, req⟩ := anyo
        simp only [build_type, Schema.schema_data, Schema.schema_kind,
          AnySchema.properties, AnySchema.required] at h
        by_cases he : props.isEmpty = true
        · rw [if_pos he] at h
          cases h
          exact ⟨rfl, fun ti hti => by cases hti; rfl⟩
        · rw [if_neg he] at h
          obtain ⟨s0, hs0, h⟩ := Outcome.bind_eq_ok _ _ _ h
          cases h
          exact ⟨hstruct _ _ s0 hs0, fun ti hti => by cases hti⟩

theorem build_type_reference_named (fuel : Nat) (lookup : SchemaLookup) (r : Str)
    (st : StructOrType) (h : build_type fuel lookup (.Reference r) = .ok st) :
    ∃ n meta, st = (TypeInner.named n).with_meta_either meta := by
  rcases fuel with - | f
  · cases h
  · rw [build_type] at h
    rcases hv : validate_schema_ref r lookup with e | nm <;> rw [hv] at h
    · cases h
    · obtain ⟨n, meta⟩ := nm
      cases h
      exact ⟨n, meta, rfl⟩

/-- Claim C10: in every value the type graph builder or struct extraction
produces, an `Option` node never directly wraps another `Option` node; and a
bare schema reference always builds to a resolved `Named` IR node — the IR
carries no raw schema references (its grammar has no reference constructor,
and arrays/optionals wrap already-built `HType` nodes). -/
theorem build_type_noOptOpt :
    (∀ (fuel : Nat) (lookup : SchemaLookup) (ros : ReferenceOr Schema) (st : StructOrType),
      build_type fuel lookup ros = .ok st → st.noOptOptE = true) ∧
    (∀ (fuel : Nat) (lookup : SchemaLookup) (props : List (Str × ReferenceOr Schema))
        (required : List Str) (s : Struct),
      Struct.from_objlike (build_type fuel lookup) props required = .ok s →
      ∀ fd ∈ s.fields, fd.ty.noOptOpt = true) ∧
    (∀ (fuel : Nat) (lookup : SchemaLookup) (r : Str) (st : StructOrType),
      build_type fuel lookup (.Reference r) = .ok st →
      ∃ n meta, st = (TypeInner.named n).with_meta_either meta) := by
  refine ⟨fun fuel lookup ros st h => (build_type_inv fuel lookup ros st h).1,
    ?_, build_type_reference_named⟩
  intro fuel lookup props required s hs fd hfd
  obtain ⟨hfa, -⟩ := from_objlike_ok _ _ _ _ hs
  obtain ⟨p, -, hspec⟩ := forall₂_mem_right hfa fd hfd
  exact fieldSpec_noOptOpt_of (build_type fuel lookup) (build_type_inv fuel lookup)
    required p fd hspec

/-- Witness for C10 at the spec's example object (whose `tag` field is an
`Optional` wrapping a plain `String`). -/
theorem build_type_noOptOpt_witness :
    ∀ fd ∈ ({fields := [⟨⟨chars "id"⟩, .mk mdef .i64⟩,
        ⟨⟨chars "name"⟩, .mk mdef .string⟩,
        ⟨⟨chars "tag"⟩, .mk mdef (.option (.mk mdef .string))⟩]} : Struct).fields,
      fd.ty.noOptOpt = true :=
  build_type_noOptOpt.2.1 5 [] propsEx [chars "id", chars "name"] _ rfl

end Hsr
